import Mathlib

set_option maxRecDepth 4000
set_option maxHeartbeats 1000000

/-!
Verification development for the AUTOSAR-style COM layer
(src/infras/communication/Com/Com.c of ssas-public).

The C source is shallowly embedded: PDU byte buffers are lists of
naturals (one entry per byte), 32-bit machine arithmetic is Nat with
explicit masking, pointers into PDU buffers are (pdu index, byte offset)
pairs, fallible functions return Option, and the PduR transmit result is
an oracle parameter.  The build-time generated configuration tables are
explicit structures; numOfSignals / numOfIPdus are the lengths of the
configuration lists.  The source is compiled with COM_USE_SIGNAL_UPDATE_BIT
and COM_USE_CAN defined, so those regions are part of the model.

The Std_Bit codec (Std_BitGet / Std_BitSet / Std_BitClear and the
little/big endian field accessors) is part of this repository but its
source file is not available here; those functions are modelled from the
specification text, as marked on each definition.
-/

/-! ### Basic types -/

inductive Std_ReturnType where
  | E_OK
  | E_NOT_OK
deriving DecidableEq

def E_OK : Std_ReturnType := Std_ReturnType.E_OK

def E_NOT_OK : Std_ReturnType := Std_ReturnType.E_NOT_OK

inductive ComSignalType where
  | COM_SINT8
  | COM_UINT8
  | COM_SINT16
  | COM_UINT16
  | COM_SINT32
  | COM_UINT32
  | COM_UINT8N
  | COM_GROUP_SIGNAL
deriving DecidableEq

inductive ComEndianness where
  | BIG
  | LITTLE
  | OPAQUE
deriving DecidableEq

/-- A value held behind a SignalDataPtr: either the raw unsigned contents
of a scalar slot of the signal's native width, or a byte array. -/
inductive SigData where
  | scalar (v : Nat)
  | bytes (bs : List Nat)
deriving DecidableEq

/-- Native width in bits of the destination/source C scalar type of a
signal kind (int8/uint8 = 8, int16/uint16 = 16, int32/uint32 = 32). -/
def nativeWidth : ComSignalType → Nat
  | .COM_SINT8 => 8
  | .COM_UINT8 => 8
  | .COM_SINT16 => 16
  | .COM_UINT16 => 16
  | .COM_SINT32 => 32
  | .COM_UINT32 => 32
  | _ => 8

/-- Value of a little-endian (host order) byte sequence. -/
def leBytesVal : List Nat → Nat
  | [] => 0
  | b :: rest => b % 256 + 256 * leBytesVal rest

/-- Reading a w-bit unsigned scalar through a SignalDataPtr
(models the *(uint8_t*) / *(uint16_t*) / *(uint32_t*) derefs). -/
def readScalar (w : Nat) : SigData → Nat
  | .scalar v => v % 2 ^ w
  | .bytes bs => leBytesVal (bs.take (w / 8)) % 2 ^ w

/-- The first n bytes behind a SignalDataPtr (models reading the source
of a memcpy of n bytes). -/
def sigBytes (d : SigData) (n : Nat) : List Nat :=
  match d with
  | .bytes bs => (List.range n).map (fun k => bs.getD k 0)
  | .scalar v => (List.range n).map (fun k => v / 256 ^ k % 256)

/-- Interpretation of a w-bit raw unsigned value as a two-complement
signed integer. -/
def toSigned (w : Nat) (v : Nat) : Int :=
  if v < 2 ^ (w - 1) then (v : Int) else (v : Int) - 2 ^ w

/-- The w-bit two-complement raw representation of a signed integer. -/
def toUnsigned (w : Nat) (x : Int) : Nat :=
  (x % (2 ^ w : Int)).toNat

/-! ### Std_Bit codec (modelled from the spec, file not in src/) -/

/-- Modelled from the spec: Std_BitGet, single-bit read, bits indexed
LSB-first within each byte (section 4.A of the spec; Std_Bit.c is not
part of the provided sources). -/
def Std_BitGet (buf : List Nat) (pos : Nat) : Bool :=
  (buf.getD (pos / 8) 0).testBit (pos % 8)

/-- Modelled from the spec: Std_BitSet, single-bit set, LSB-first
within each byte. -/
def Std_BitSet (buf : List Nat) (pos : Nat) : List Nat :=
  buf.set (pos / 8) ((buf.getD (pos / 8) 0) ||| (1 <<< (pos % 8)))

/-- Modelled from the spec: Std_BitClear, single-bit clear, LSB-first
within each byte. -/
def Std_BitClear (buf : List Nat) (pos : Nat) : List Nat :=
  buf.set (pos / 8) ((buf.getD (pos / 8) 0) &&& (0xFF ^^^ (1 <<< (pos % 8))))

/-- Write one bit to a given value. -/
def writeBit (buf : List Nat) (pos : Nat) (b : Bool) : List Nat :=
  if b then Std_BitSet buf pos else Std_BitClear buf pos

/-- Modelled from the spec: Std_BitGetLittleEndian. Bit k of the field
lies at absolute bit (pos + k), LSB-first across the byte stream; the
result is the right-aligned unsigned field value. -/
def Std_BitGetLittleEndian (buf : List Nat) (pos : Nat) : Nat → Nat
  | 0 => 0
  | w + 1 => (if Std_BitGet buf pos then 1 else 0) + 2 * Std_BitGetLittleEndian buf (pos + 1) w

/-- Modelled from the spec: Std_BitSetLittleEndian. Writes the low w bits
of v at bit positions pos .. pos+w-1, preserving all other bits. -/
def Std_BitSetLittleEndian (buf : List Nat) (v pos : Nat) : Nat → List Nat
  | 0 => buf
  | w + 1 => Std_BitSetLittleEndian (writeBit buf pos (v.testBit 0)) (v / 2) (pos + 1) w

/-- Linearisation of the AUTOSAR big-endian (Motorola) bit order:
within each byte, bit 7 (MSB) comes first.  beIdx converts between a
big-endian walk position and the LSB-first absolute bit index; it is an
involution. -/
def beIdx (p : Nat) : Nat := 8 * (p / 8) + (7 - p % 8)

def beGetAux (buf : List Nat) (l : Nat) : Nat → Nat
  | 0 => 0
  | w + 1 => (if Std_BitGet buf (beIdx l) then 2 ^ w else 0) + beGetAux buf (l + 1) w

def beSetAux (buf : List Nat) (l v : Nat) : Nat → List Nat
  | 0 => buf
  | w + 1 => beSetAux (writeBit buf (beIdx l) (v.testBit w)) (l + 1) v w

/-- Modelled from the spec: Std_BitGetBigEndian.  pos is the MSB-numbered
position of the field's most significant bit; reading proceeds from that
bit towards lower bits, wrapping into bit 7 of the next byte. -/
def Std_BitGetBigEndian (buf : List Nat) (pos w : Nat) : Nat :=
  beGetAux buf (beIdx pos) w

/-- Modelled from the spec: Std_BitSetBigEndian, the symmetric writer. -/
def Std_BitSetBigEndian (buf : List Nat) (v pos w : Nat) : List Nat :=
  beSetAux buf (beIdx pos) v w

/-- memcpy of the bytes of src into buf starting at byte offset off
(writes outside the buffer are dropped, the buffer length never
changes). -/
def memcpyInto : List Nat → Nat → List Nat → List Nat
  | buf, _, [] => buf
  | buf, off, b :: rest => memcpyInto (buf.set off b) (off + 1) rest

/-- memcpy of n bytes out of buf starting at byte offset off. -/
def readBytes (buf : List Nat) (off n : Nat) : List Nat :=
  (List.range n).map (fun k => buf.getD (off + k) 0)

/-! ### Configuration and runtime state -/

structure Com_SignalConfigType where
  type : ComSignalType
  Endianness : ComEndianness
  /-- bit position, relative to the signal's ptr -/
  BitPosition : Nat
  BitSize : Nat
  /-- update bit position relative to ptr; none = COM_UPDATE_BIT_NOT_USED -/
  UpdateBit : Option Nat
  /-- byte offset of signal->ptr inside the owning PDU buffer -/
  ptrOff : Nat
  /-- index of the owning PDU (the buffer signal->ptr points into) -/
  pduIdx : Nat
  /-- contents behind signal->initPtr -/
  initVal : SigData
deriving DecidableEq

structure Com_RxConfigType where
  Timeout : Nat
  FirstTimeout : Nat
  /-- whether the RxNotification callback is configured (non-NULL) -/
  cbRx : Bool
  /-- whether the RxTOut callback is configured (non-NULL) -/
  cbTOut : Bool
deriving DecidableEq

structure Com_TxConfigType where
  CycleTime : Nat
  FirstTime : Nat
  TxPduId : Nat
deriving DecidableEq

structure Com_IPduConfigType where
  GroupRefMask : Nat
  length : Nat
  signals : List Com_SignalConfigType
  rxConfig : Option Com_RxConfigType
  txConfig : Option Com_TxConfigType
deriving DecidableEq

structure Com_ConfigType where
  SignalConfigs : List Com_SignalConfigType
  IPduConfigs : List Com_IPduConfigType
  numOfGroups : Nat
deriving DecidableEq

def dfltSig : Com_SignalConfigType :=
  { type := .COM_UINT8, Endianness := .LITTLE, BitPosition := 0, BitSize := 0,
    UpdateBit := none, ptrOff := 0, pduIdx := 0, initVal := .scalar 0 }

/-- Mutable runtime state: the group status word, one byte buffer per
I-PDU, and one timer per I-PDU (the rx or tx context timer). -/
structure ComState where
  GroupStatus : Nat
  bufs : List (List Nat)
  timers : List Nat
deriving DecidableEq

/-- Observable interactions of one call: PduR_ComTransmit invocations and
application callbacks. -/
inductive ComEvent where
  | transmit (pduIdx TxPduId : Nat) (data : List Nat)
  | rxTOut (pduIdx : Nat)
  | rxInd (pduIdx : Nat)
deriving DecidableEq

/-! ### Signal packer (Com.c lines 24-198) -/

/-- comStoreSignalValue: mask the extracted 32-bit word to BitSize bits,
sign-extend for signed kinds, and narrow to the destination type.
Returns none exactly when the C code returns E_NOT_OK (no store). -/
def comStoreSignalValue (signal : Com_SignalConfigType) (sigV : Nat) : Option SigData :=
  let mask := 0xFFFFFFFF >>> (32 - signal.BitSize)
  let v := sigV &&& mask
  let signmask := 0xFFFFFFFF ^^^ (mask >>> 1)
  match signal.type with
  | .COM_SINT8 => some (.scalar ((if v &&& signmask ≠ 0 then v ||| signmask else v) % 2 ^ 8))
  | .COM_UINT8 => some (.scalar (v % 2 ^ 8))
  | .COM_SINT16 => some (.scalar ((if v &&& signmask ≠ 0 then v ||| signmask else v) % 2 ^ 16))
  | .COM_UINT16 => some (.scalar (v % 2 ^ 16))
  | .COM_SINT32 => some (.scalar ((if v &&& signmask ≠ 0 then v ||| signmask else v) % 2 ^ 32))
  | .COM_UINT32 => some (.scalar (v % 2 ^ 32))
  | _ => none

/-- comGetSignalValue: read the source value as a zero-extended 32-bit
word.  none models the E_NOT_OK default branch (unsupported type). -/
def comGetSignalValue (signal : Com_SignalConfigType) (d : SigData) : Option Nat :=
  match signal.type with
  | .COM_SINT8 => some (readScalar 8 d)
  | .COM_UINT8 => some (readScalar 8 d)
  | .COM_SINT16 => some (readScalar 16 d)
  | .COM_UINT16 => some (readScalar 16 d)
  | .COM_SINT32 => some (readScalar 32 d)
  | .COM_UINT32 => some (readScalar 32 d)
  | _ => none

/-- Body of comSendSignal before the update-bit epilogue
(Com.c lines 156-171): UINT8N/OPAQUE byte copy, otherwise the endian
codec write of the value read by comGetSignalValue. -/
def comSendSignalData (signal : Com_SignalConfigType) (d : SigData) (buf : List Nat) :
    Std_ReturnType × List Nat :=
  if signal.type = .COM_UINT8N ∨ signal.Endianness = .OPAQUE then
    (E_OK, memcpyInto buf signal.ptrOff (sigBytes d (signal.BitSize >>> 3)))
  else
    match signal.Endianness with
    | .BIG =>
      match comGetSignalValue signal d with
      | some v => (E_OK, Std_BitSetBigEndian buf v (8 * signal.ptrOff + signal.BitPosition) signal.BitSize)
      | none => (E_NOT_OK, buf)
    | .LITTLE =>
      match comGetSignalValue signal d with
      | some v => (E_OK, Std_BitSetLittleEndian buf v (8 * signal.ptrOff + signal.BitPosition) signal.BitSize)
      | none => (E_NOT_OK, buf)
    | .OPAQUE => (E_NOT_OK, buf)

/-- The update-bit epilogue of comSendSignal (Com.c lines 172-176): the
update bit, when configured, is set unconditionally after the write
attempt. -/
def comSetUpdateBit (signal : Com_SignalConfigType) (buf : List Nat) : List Nat :=
  match signal.UpdateBit with
  | some u => Std_BitSet buf (8 * signal.ptrOff + u)
  | none => buf

/-- comSendSignal (Com.c lines 154-178), acting on the owning PDU buffer,
for a non-NULL SignalDataPtr. -/
def comSendSignal (signal : Com_SignalConfigType) (d : SigData) (buf : List Nat) :
    Std_ReturnType × List Nat :=
  let r := comSendSignalData signal d buf
  (r.1, comSetUpdateBit signal r.2)

/-- Body of comReceiveSignal after the update-bit gate
(Com.c lines 135-150). -/
def comReceiveSignalData (signal : Com_SignalConfigType) (buf : List Nat) :
    Std_ReturnType × List Nat × Option SigData :=
  if signal.type = .COM_UINT8N ∨ signal.Endianness = .OPAQUE then
    (E_OK, buf, some (.bytes (readBytes buf signal.ptrOff (signal.BitSize >>> 3))))
  else
    match signal.Endianness with
    | .BIG =>
      match comStoreSignalValue signal
          (Std_BitGetBigEndian buf (8 * signal.ptrOff + signal.BitPosition) signal.BitSize) with
      | some dv => (E_OK, buf, some dv)
      | none => (E_NOT_OK, buf, none)
    | .LITTLE =>
      match comStoreSignalValue signal
          (Std_BitGetLittleEndian buf (8 * signal.ptrOff + signal.BitPosition) signal.BitSize) with
      | some dv => (E_OK, buf, some dv)
      | none => (E_NOT_OK, buf, none)
    | .OPAQUE => (E_NOT_OK, buf, none)

/-- comReceiveSignal (Com.c lines 122-152): update-bit gate first (clear
bit means E_NOT_OK and no read; set bit is cleared), then the read. -/
def comReceiveSignal (signal : Com_SignalConfigType) (buf : List Nat) :
    Std_ReturnType × List Nat × Option SigData :=
  match signal.UpdateBit with
  | some u =>
    if Std_BitGet buf (8 * signal.ptrOff + u) then
      comReceiveSignalData signal (Std_BitClear buf (8 * signal.ptrOff + u))
    else
      (E_NOT_OK, buf, none)
  | none => comReceiveSignalData signal buf

/-- comIPduDataInit (Com.c lines 179-186): run the send path on every
signal of the PDU with its init value as source. -/
def comIPduDataInit (signals : List Com_SignalConfigType) (buf : List Nat) : List Nat :=
  signals.foldl (fun b sg => (comSendSignal sg sg.initVal b).2) buf

/-- comTxClearUpdateBit (Com.c lines 188-197). -/
def comTxClearUpdateBit (signals : List Com_SignalConfigType) (buf : List Nat) : List Nat :=
  signals.foldl
    (fun b sg =>
      match sg.UpdateBit with
      | some u => Std_BitClear b (8 * sg.ptrOff + u)
      | none => b) buf

/-! ### Public API (Com.c lines 321-544) -/

/-- Com_Init: zero the group status word. -/
def Com_Init (st : ComState) : ComState := { st with GroupStatus := 0 }

/-- Per-PDU body of the Com_IpduGroupStart loop (Com.c lines 330-352). -/
def groupStartOne (cfg : Com_ConfigType) (g : Nat) (ini : Bool)
    (st : ComState) (i : Nat) : ComState :=
  match cfg.IPduConfigs[i]? with
  | none => st
  | some ip =>
    if ip.GroupRefMask &&& (1 <<< g) ≠ 0 then
      let st1 :=
        if ini then
          { st with bufs := st.bufs.set i (comIPduDataInit ip.signals (st.bufs.getD i [])) }
        else st
      match ip.rxConfig with
      | some rx =>
        { st1 with timers := st1.timers.set i (if 0 < rx.FirstTimeout then rx.FirstTimeout else rx.Timeout) }
      | none =>
        match ip.txConfig with
        | some tx =>
          { st1 with timers := st1.timers.set i (if 0 < tx.FirstTime then tx.FirstTime else tx.CycleTime) }
        | none => st1
    else st

/-- Com_IpduGroupStart (Com.c lines 325-354). -/
def Com_IpduGroupStart (cfg : Com_ConfigType) (g : Nat) (ini : Bool)
    (st : ComState) : ComState :=
  if g < cfg.numOfGroups then
    (List.range cfg.IPduConfigs.length).foldl
      (groupStartOne cfg g ini)
      { st with GroupStatus := st.GroupStatus ||| (1 <<< g) }
  else st

/-- Com_IpduGroupStop (Com.c lines 356-360); GroupStatus is a 32-bit word. -/
def Com_IpduGroupStop (cfg : Com_ConfigType) (g : Nat) (st : ComState) : ComState :=
  if g < cfg.numOfGroups then
    { st with GroupStatus := st.GroupStatus &&& (0xFFFFFFFF ^^^ (1 <<< g)) }
  else st

/-- Whether comSendSignal would dereference a NULL SignalDataPtr: every
path dereferences it except the unsupported-type path, where
comGetSignalValue hits its default branch before any access. -/
def comSendSignalDerefs (signal : Com_SignalConfigType) : Bool :=
  decide ¬(signal.type = .COM_GROUP_SIGNAL ∧ signal.Endianness ≠ .OPAQUE)

/-- Com_SendSignal (Com.c lines 374-385).  The id range check is present
but there is no NULL check of SignalDataPtr; a NULL source reaching a
dereference is undefined behaviour, modelled as the result none. -/
def Com_SendSignal (cfg : Com_ConfigType) (SignalId : Nat) (src : Option SigData)
    (st : ComState) : Option (Std_ReturnType × ComState) :=
  if SignalId < cfg.SignalConfigs.length then
    let sg := cfg.SignalConfigs.getD SignalId dfltSig
    let buf := st.bufs.getD sg.pduIdx []
    match src with
    | some d =>
      let r := comSendSignal sg d buf
      some (r.1, { st with bufs := st.bufs.set sg.pduIdx r.2 })
    | none =>
      if comSendSignalDerefs sg then none
      else some (E_NOT_OK, { st with bufs := st.bufs.set sg.pduIdx (comSetUpdateBit sg buf) })
  else some (E_NOT_OK, st)

/-- Com_ReceiveSignal (Com.c lines 362-372): id range check and NULL
check of the destination pointer (dstValid). -/
def Com_ReceiveSignal (cfg : Com_ConfigType) (SignalId : Nat) (dstValid : Bool)
    (st : ComState) : Std_ReturnType × ComState × Option SigData :=
  if SignalId < cfg.SignalConfigs.length ∧ dstValid then
    let sg := cfg.SignalConfigs.getD SignalId dfltSig
    let r := comReceiveSignal sg (st.bufs.getD sg.pduIdx [])
    (r.1, { st with bufs := st.bufs.set sg.pduIdx r.2.1 }, r.2.2)
  else (E_NOT_OK, st, none)

/-- Com_TriggerIPDUSend (Com.c lines 418-439).  txRes is the
PduR_ComTransmit oracle (TxPduId and SduData determine the result). -/
def Com_TriggerIPDUSend (cfg : Com_ConfigType) (txRes : Nat → List Nat → Bool)
    (PduId : Nat) (st : ComState) : Std_ReturnType × ComState × List ComEvent :=
  match cfg.IPduConfigs[PduId]? with
  | none => (E_NOT_OK, st, [])
  | some ip =>
    match ip.txConfig with
    | none => (E_NOT_OK, st, [])
    | some tx =>
      if st.GroupStatus &&& ip.GroupRefMask = 0 then (E_NOT_OK, st, [])
      else
        let data := (st.bufs.getD PduId []).take ip.length
        if txRes tx.TxPduId data then
          (E_OK, { st with timers := st.timers.set PduId tx.CycleTime },
            [.transmit PduId tx.TxPduId data])
        else
          (E_OK, { st with timers := st.timers.set PduId 1 },
            [.transmit PduId tx.TxPduId data])

/-- Com_RxIndication (Com.c lines 442-456). -/
def Com_RxIndication (cfg : Com_ConfigType) (RxPduId : Nat) (frame : List Nat)
    (st : ComState) : ComState × List ComEvent :=
  match cfg.IPduConfigs[RxPduId]? with
  | none => (st, [])
  | some ip =>
    match ip.rxConfig with
    | none => (st, [])
    | some rx =>
      if st.GroupStatus &&& ip.GroupRefMask = 0 then (st, [])
      else if ip.length ≤ frame.length then
        ({ st with
            bufs := st.bufs.set RxPduId (memcpyInto (st.bufs.getD RxPduId []) 0 (frame.take ip.length)),
            timers := st.timers.set RxPduId rx.Timeout },
          if rx.cbRx then [.rxInd RxPduId] else [])
      else (st, [])

/-- Com_TriggerTransmit (Com.c lines 458-471): copy the PDU buffer into
the caller's frame when its capacity suffices; no state is touched. -/
def Com_TriggerTransmit (cfg : Com_ConfigType) (st : ComState) (TxPduId : Nat)
    (SduLength : Nat) : Std_ReturnType × Option (List Nat) :=
  match cfg.IPduConfigs[TxPduId]? with
  | none => (E_NOT_OK, none)
  | some ip =>
    if ip.length ≤ SduLength then
      (E_OK, some ((st.bufs.getD TxPduId []).take ip.length))
    else (E_NOT_OK, none)

/-- Per-PDU body of the Com_MainFunctionRx loop (Com.c lines 495-507). -/
def comMainRxOne (cfg : Com_ConfigType) (st : ComState) (i : Nat) :
    ComState × List ComEvent :=
  match cfg.IPduConfigs[i]? with
  | none => (st, [])
  | some ip =>
    match ip.rxConfig with
    | none => (st, [])
    | some rx =>
      if st.GroupStatus &&& ip.GroupRefMask = 0 then (st, [])
      else
        let t := st.timers.getD i 0
        if 0 < t then
          ({ st with timers := st.timers.set i (t - 1) },
            if t - 1 = 0 ∧ rx.cbTOut then [.rxTOut i] else [])
        else (st, [])

/-- Com_MainFunctionRx (Com.c lines 491-508). -/
def Com_MainFunctionRx (cfg : Com_ConfigType) (st : ComState) :
    ComState × List ComEvent :=
  (List.range cfg.IPduConfigs.length).foldl
    (fun acc i =>
      let r := comMainRxOne cfg acc.1 i
      (r.1, acc.2 ++ r.2)) (st, [])

/-- Per-PDU body of the Com_MainFunctionTx loop (Com.c lines 517-536). -/
def comMainTxOne (cfg : Com_ConfigType) (txRes : Nat → List Nat → Bool)
    (st : ComState) (i : Nat) : ComState × List ComEvent :=
  match cfg.IPduConfigs[i]? with
  | none => (st, [])
  | some ip =>
    match ip.txConfig with
    | none => (st, [])
    | some tx =>
      if st.GroupStatus &&& ip.GroupRefMask = 0 then (st, [])
      else
        let t := st.timers.getD i 0
        if 0 < t then
          if t - 1 = 0 then
            let data := (st.bufs.getD i []).take ip.length
            if txRes tx.TxPduId data then
              ({ st with
                  timers := st.timers.set i tx.CycleTime,
                  bufs := st.bufs.set i (comTxClearUpdateBit ip.signals (st.bufs.getD i [])) },
                [.transmit i tx.TxPduId data])
            else
              ({ st with timers := st.timers.set i 1 }, [.transmit i tx.TxPduId data])
          else ({ st with timers := st.timers.set i (t - 1) }, [])
        else (st, [])

/-- Com_MainFunctionTx (Com.c lines 510-539). -/
def Com_MainFunctionTx (cfg : Com_ConfigType) (txRes : Nat → List Nat → Bool)
    (st : ComState) : ComState × List ComEvent :=
  (List.range cfg.IPduConfigs.length).foldl
    (fun acc i =>
      let r := comMainTxOne cfg txRes acc.1 i
      (r.1, acc.2 ++ r.2)) (st, [])

/-- Iterate Com_MainFunctionTx (states only). -/
def runMainTx (cfg : Com_ConfigType) (txRes : Nat → List Nat → Bool)
    (st : ComState) : Nat → ComState
  | 0 => st
  | n + 1 => runMainTx cfg txRes (Com_MainFunctionTx cfg txRes st).1 n

/-- Iterate Com_MainFunctionRx (states only). -/
def runMainRx (cfg : Com_ConfigType) (st : ComState) : Nat → ComState
  | 0 => st
  | n + 1 => runMainRx cfg (Com_MainFunctionRx cfg st).1 n

/-- A PduR_ComTransmit oracle that always returns E_OK. -/
def alwaysOk : Nat → List Nat → Bool := fun _ _ => true

/-- Whether an event list contains a PduR_ComTransmit invocation for PDU i. -/
def hasTransmitFor (i : Nat) (evs : List ComEvent) : Bool :=
  evs.any fun e =>
    match e with
    | .transmit j _ _ => j == i
    | _ => false

/-- Whether an event list contains an RxTOut callback for PDU i. -/
def hasRxTOutFor (i : Nat) (evs : List ComEvent) : Bool :=
  evs.any fun e =>
    match e with
    | .rxTOut j => j == i
    | _ => false

/-- The events of a list that concern PDU i. -/
def eventsFor (i : Nat) (evs : List ComEvent) : List ComEvent :=
  evs.filter fun e =>
    match e with
    | .transmit j _ _ => j == i
    | .rxTOut j => j == i
    | .rxInd j => j == i

/-- The set of bit positions a signal's field write (send path, before
the update-bit epilogue) may modify. -/
def sigTouches (sg : Com_SignalConfigType) (p : Nat) : Bool :=
  if sg.type = .COM_UINT8N ∨ sg.Endianness = .OPAQUE then
    decide (sg.ptrOff ≤ p / 8 ∧ p / 8 < sg.ptrOff + (sg.BitSize >>> 3))
  else
    match sg.Endianness with
    | .LITTLE =>
      decide (8 * sg.ptrOff + sg.BitPosition ≤ p ∧ p < 8 * sg.ptrOff + sg.BitPosition + sg.BitSize)
    | .BIG =>
      decide (∃ j < sg.BitSize, p = beIdx (beIdx (8 * sg.ptrOff + sg.BitPosition) + j))
    | .OPAQUE => false

/-- The bits addressed by a signal's scalar field lie inside a buffer of
len bytes. -/
def sigFieldInBounds (sg : Com_SignalConfigType) (len : Nat) : Prop :=
  match sg.Endianness with
  | .LITTLE => 8 * sg.ptrOff + sg.BitPosition + sg.BitSize ≤ 8 * len
  | .BIG => beIdx (8 * sg.ptrOff + sg.BitPosition) + sg.BitSize ≤ 8 * len
  | .OPAQUE => sg.ptrOff + sg.BitSize / 8 ≤ len

/-! ### Witness configurations (concrete instances used by witnesses and
counterexamples) -/

def sigW1 : Com_SignalConfigType :=
  { type := .COM_SINT8, Endianness := .LITTLE, BitPosition := 3, BitSize := 4,
    UpdateBit := none, ptrOff := 0, pduIdx := 0, initVal := .scalar 0 }

def sigW2 : Com_SignalConfigType :=
  { type := .COM_UINT8, Endianness := .LITTLE, BitPosition := 0, BitSize := 8,
    UpdateBit := some 8, ptrOff := 0, pduIdx := 0, initVal := .scalar 0 }

def cfgW2 : Com_ConfigType :=
  { SignalConfigs := [sigW2],
    IPduConfigs := [{ GroupRefMask := 1, length := 2, signals := [sigW2],
                      rxConfig := none, txConfig := none }],
    numOfGroups := 1 }

def stW2 : ComState := { GroupStatus := 1, bufs := [[0, 0]], timers := [0] }

def sigW3 : Com_SignalConfigType :=
  { type := .COM_GROUP_SIGNAL, Endianness := .LITTLE, BitPosition := 0, BitSize := 8,
    UpdateBit := some 0, ptrOff := 0, pduIdx := 0, initVal := .scalar 0 }

def cfgW3 : Com_ConfigType :=
  { SignalConfigs := [sigW3],
    IPduConfigs := [{ GroupRefMask := 1, length := 1, signals := [sigW3],
                      rxConfig := none, txConfig := none }],
    numOfGroups := 1 }

def stW3 : ComState := { GroupStatus := 1, bufs := [[0]], timers := [0] }

def ipW4 : Com_IPduConfigType :=
  { GroupRefMask := 2, length := 1, signals := [],
    rxConfig := some { Timeout := 4, FirstTimeout := 0, cbRx := true, cbTOut := true },
    txConfig := none }

def cfgW4 : Com_ConfigType :=
  { SignalConfigs := [], IPduConfigs := [ipW4], numOfGroups := 2 }

def stW4 : ComState := { GroupStatus := 1, bufs := [[9]], timers := [3] }

def ipW5 : Com_IPduConfigType :=
  { GroupRefMask := 1, length := 1, signals := [], rxConfig := none,
    txConfig := some { CycleTime := 5, FirstTime := 2, TxPduId := 7 } }

def cfgW5 : Com_ConfigType :=
  { SignalConfigs := [], IPduConfigs := [ipW5], numOfGroups := 1 }

def stW5 : ComState := { GroupStatus := 0, bufs := [[0]], timers := [0] }

def ipW6 : Com_IPduConfigType :=
  { GroupRefMask := 1, length := 1, signals := [],
    rxConfig := some { Timeout := 4, FirstTimeout := 1, cbRx := true, cbTOut := true },
    txConfig := none }

def cfgW6 : Com_ConfigType :=
  { SignalConfigs := [], IPduConfigs := [ipW6], numOfGroups := 1 }

def stW6 : ComState := { GroupStatus := 0, bufs := [[0]], timers := [0] }

def sigW7 : Com_SignalConfigType :=
  { type := .COM_SINT8, Endianness := .LITTLE, BitPosition := 0, BitSize := 8,
    UpdateBit := none, ptrOff := 0, pduIdx := 0, initVal := .scalar 0 }

def cfgW7 : Com_ConfigType :=
  { SignalConfigs := [sigW7],
    IPduConfigs := [{ GroupRefMask := 1, length := 1, signals := [sigW7],
                      rxConfig := none, txConfig := none }],
    numOfGroups := 1 }

def stW7 : ComState := { GroupStatus := 1, bufs := [[0]], timers := [0] }

def sigW8 : Com_SignalConfigType :=
  { type := .COM_UINT8, Endianness := .LITTLE, BitPosition := 0, BitSize := 8,
    UpdateBit := some 8, ptrOff := 0, pduIdx := 0, initVal := .scalar 0 }

def ipW8 : Com_IPduConfigType :=
  { GroupRefMask := 1, length := 2, signals := [sigW8], rxConfig := none,
    txConfig := some { CycleTime := 5, FirstTime := 2, TxPduId := 3 } }

def cfgW8 : Com_ConfigType :=
  { SignalConfigs := [sigW8], IPduConfigs := [ipW8], numOfGroups := 1 }

def stW8 : ComState := { GroupStatus := 1, bufs := [[0x5A, 1]], timers := [1] }

def ipW9 : Com_IPduConfigType :=
  { GroupRefMask := 2, length := 2, signals := [],
    rxConfig := some { Timeout := 4, FirstTimeout := 0, cbRx := false, cbTOut := false },
    txConfig := none }

def cfgW9 : Com_ConfigType :=
  { SignalConfigs := [], IPduConfigs := [ipW9], numOfGroups := 2 }

def stW9 : ComState := { GroupStatus := 1, bufs := [[0xDE, 0xAD]], timers := [3] }

def sigW10a : Com_SignalConfigType :=
  { type := .COM_UINT8, Endianness := .LITTLE, BitPosition := 0, BitSize := 8,
    UpdateBit := some 16, ptrOff := 0, pduIdx := 0, initVal := .scalar 0x11 }

def sigW10b : Com_SignalConfigType :=
  { type := .COM_UINT8, Endianness := .LITTLE, BitPosition := 8, BitSize := 8,
    UpdateBit := some 17, ptrOff := 0, pduIdx := 0, initVal := .scalar 0x22 }

def ipW10 : Com_IPduConfigType :=
  { GroupRefMask := 1, length := 3, signals := [sigW10a, sigW10b],
    rxConfig := none,
    txConfig := some { CycleTime := 5, FirstTime := 0, TxPduId := 0 } }

def cfgW10 : Com_ConfigType :=
  { SignalConfigs := [sigW10a, sigW10b], IPduConfigs := [ipW10], numOfGroups := 1 }

def stW10 : ComState := { GroupStatus := 0, bufs := [[0, 0, 0]], timers := [0] }

/-! ### List access helper lemmas -/

theorem getD_set_self {α : Type} (l : List α) (i : Nat) (a d : α) (h : i < l.length) :
    (l.set i a).getD i d = a := by
  simp [List.getD_eq_getElem?_getD, List.getElem?_set_self h]

theorem getD_set_ne {α : Type} (l : List α) {i j : Nat} (a d : α) (h : i ≠ j) :
    (l.set i a).getD j d = l.getD j d := by
  simp [List.getD_eq_getElem?_getD, List.getElem?_set_ne h]

theorem set_getD_self {α : Type} (l : List α) (i : Nat) (d : α) (h : i < l.length) :
    l.set i (l.getD i d) = l := by
  apply List.ext_getElem?
  intro j
  by_cases hj : j = i
  · subst hj
    rw [List.getElem?_set_self h]
    simp [List.getD_eq_getElem?_getD, List.getElem?_eq_getElem h]
  · rw [List.getElem?_set_ne (fun hh => hj hh.symm)]

/-! ### Single-bit lemmas -/

theorem getD_eq_getElem?_getD' {α : Type} (l : List α) (n : Nat) (d : α) :
    l.getD n d = (l[n]?).getD d := List.getD_eq_getElem?_getD l n d

theorem testBit_or_two_pow_self (B k : Nat) : (B ||| 1 <<< k).testBit k = true := by
  rw [Nat.shiftLeft_eq, one_mul]
  rw [Nat.testBit_or, Nat.testBit_two_pow]
  simp

theorem testBit_or_two_pow_ne (B k m : Nat) (h : k ≠ m) :
    (B ||| 1 <<< k).testBit m = B.testBit m := by
  rw [Nat.shiftLeft_eq, one_mul]
  rw [Nat.testBit_or, Nat.testBit_two_pow]
  simp [h]

theorem testBit_clear_mask_self (B k : Nat) (hk : k < 8) :
    (B &&& (0xFF ^^^ 1 <<< k)).testBit k = false := by
  rw [Nat.shiftLeft_eq, one_mul]
  have h255 : (0xFF : Nat) = 2 ^ 8 - 1 := by norm_num
  rw [Nat.testBit_and, Nat.testBit_xor, h255, Nat.testBit_two_pow_sub_one, Nat.testBit_two_pow]
  simp [hk]

theorem testBit_clear_mask_ne (B k m : Nat) (hk : m < 8) (h : k ≠ m) :
    (B &&& (0xFF ^^^ 1 <<< k)).testBit m = B.testBit m := by
  rw [Nat.shiftLeft_eq, one_mul]
  have h255 : (0xFF : Nat) = 2 ^ 8 - 1 := by norm_num
  rw [Nat.testBit_and, Nat.testBit_xor, h255, Nat.testBit_two_pow_sub_one, Nat.testBit_two_pow]
  simp [hk, h]

theorem writeBit_true (buf : List Nat) (p : Nat) :
    writeBit buf p true = Std_BitSet buf p := by
  simp [writeBit]

theorem writeBit_false (buf : List Nat) (p : Nat) :
    writeBit buf p false = Std_BitClear buf p := by
  simp [writeBit]

theorem length_writeBit (buf : List Nat) (p : Nat) (b : Bool) :
    (writeBit buf p b).length = buf.length := by
  cases b <;> simp [writeBit, Std_BitSet, Std_BitClear]

theorem Std_BitGet_writeBit_self (buf : List Nat) (p : Nat) (b : Bool)
    (h : p < 8 * buf.length) :
    Std_BitGet (writeBit buf p b) p = b := by
  have hp : p / 8 < buf.length := by omega
  have hk : p % 8 < 8 := Nat.mod_lt _ (by norm_num)
  cases b with
  | true =>
    rw [writeBit_true]
    unfold Std_BitSet Std_BitGet
    rw [getD_set_self _ _ _ _ hp]
    exact testBit_or_two_pow_self _ _
  | false =>
    rw [writeBit_false]
    unfold Std_BitClear Std_BitGet
    rw [getD_set_self _ _ _ _ hp]
    exact testBit_clear_mask_self _ _ hk

theorem Std_BitGet_writeBit_ne (buf : List Nat) (p : Nat) (b : Bool) (q : Nat)
    (h : q ≠ p) :
    Std_BitGet (writeBit buf p b) q = Std_BitGet buf q := by
  have hk : q % 8 < 8 := Nat.mod_lt _ (by norm_num)
  by_cases hb : q / 8 = p / 8
  · have hm : p % 8 ≠ q % 8 := by omega
    by_cases hin : p / 8 < buf.length
    · cases b with
      | true =>
        rw [writeBit_true]
        unfold Std_BitSet Std_BitGet
        rw [hb, getD_set_self _ _ _ _ hin]
        exact testBit_or_two_pow_ne _ _ _ hm
      | false =>
        rw [writeBit_false]
        unfold Std_BitClear Std_BitGet
        rw [hb, getD_set_self _ _ _ _ hin]
        exact testBit_clear_mask_ne _ _ _ hk hm
    · have hle : buf.length ≤ p / 8 := Nat.le_of_not_lt hin
      cases b <;>
        simp [writeBit, Std_BitSet, Std_BitClear, List.set_eq_of_length_le hle]
  · have hb2 : p / 8 ≠ q / 8 := fun hh => hb hh.symm
    cases b with
    | true =>
      rw [writeBit_true]
      unfold Std_BitSet Std_BitGet
      rw [getD_eq_getElem?_getD', List.getElem?_set_ne hb2, ← getD_eq_getElem?_getD']
    | false =>
      rw [writeBit_false]
      unfold Std_BitClear Std_BitGet
      rw [getD_eq_getElem?_getD', List.getElem?_set_ne hb2, ← getD_eq_getElem?_getD']

theorem Std_BitGet_Std_BitSet_self (buf : List Nat) (p : Nat) (h : p < 8 * buf.length) :
    Std_BitGet (Std_BitSet buf p) p = true := by
  rw [← writeBit_true]
  exact Std_BitGet_writeBit_self buf p true h

theorem Std_BitGet_Std_BitClear_self (buf : List Nat) (p : Nat) :
    Std_BitGet (Std_BitClear buf p) p = false := by
  by_cases hin : p / 8 < buf.length
  · rw [← writeBit_false]
    exact Std_BitGet_writeBit_self buf p false (by omega)
  · have hle : buf.length ≤ p / 8 := Nat.le_of_not_lt hin
    have hnone : buf[p / 8]? = none := List.getElem?_eq_none (by simpa using hle)
    unfold Std_BitClear Std_BitGet
    rw [List.set_eq_of_length_le hle, getD_eq_getElem?_getD', hnone]
    simp

theorem Std_BitGet_Std_BitSet_ne (buf : List Nat) (p q : Nat) (h : q ≠ p) :
    Std_BitGet (Std_BitSet buf p) q = Std_BitGet buf q := by
  rw [← writeBit_true]
  exact Std_BitGet_writeBit_ne buf p true q h

theorem Std_BitGet_Std_BitClear_ne (buf : List Nat) (p q : Nat) (h : q ≠ p) :
    Std_BitGet (Std_BitClear buf p) q = Std_BitGet buf q := by
  rw [← writeBit_false]
  exact Std_BitGet_writeBit_ne buf p false q h

theorem length_Std_BitSet (buf : List Nat) (p : Nat) :
    (Std_BitSet buf p).length = buf.length := by
  simp [Std_BitSet]

theorem length_Std_BitClear (buf : List Nat) (p : Nat) :
    (Std_BitClear buf p).length = buf.length := by
  simp [Std_BitClear]

/-- Setting a bit never turns a set bit off. -/
theorem Std_BitGet_Std_BitSet_mono (buf : List Nat) (p q : Nat)
    (h : Std_BitGet buf q = true) :
    Std_BitGet (Std_BitSet buf p) q = true := by
  by_cases hqp : q = p
  · subst hqp
    by_cases hin : q / 8 < buf.length
    · exact Std_BitGet_Std_BitSet_self buf q (by omega)
    · have hle : buf.length ≤ q / 8 := Nat.le_of_not_lt hin
      simp only [Std_BitSet, List.set_eq_of_length_le hle]
      exact h
  · rw [Std_BitGet_Std_BitSet_ne buf p q hqp]
    exact h

/-! ### Little-endian field codec lemmas -/

theorem length_leSet : ∀ (w : Nat) (buf : List Nat) (v pos : Nat),
    (Std_BitSetLittleEndian buf v pos w).length = buf.length := by
  intro w
  induction w with
  | zero => intro buf v pos; rfl
  | succ w ih =>
    intro buf v pos
    rw [Std_BitSetLittleEndian, ih, length_writeBit]

theorem leSet_outside : ∀ (w : Nat) (buf : List Nat) (v pos p : Nat),
    (p < pos ∨ pos + w ≤ p) →
    Std_BitGet (Std_BitSetLittleEndian buf v pos w) p = Std_BitGet buf p := by
  intro w
  induction w with
  | zero => intro buf v pos p _; rfl
  | succ w ih =>
    intro buf v pos p hp
    rw [Std_BitSetLittleEndian, ih _ _ _ _ (by omega), Std_BitGet_writeBit_ne _ _ _ _ (by omega)]

theorem leGet_leSet : ∀ (w : Nat) (buf : List Nat) (v pos : Nat),
    pos + w ≤ 8 * buf.length →
    Std_BitGetLittleEndian (Std_BitSetLittleEndian buf v pos w) pos w = v % 2 ^ w := by
  intro w
  induction w with
  | zero => intro buf v pos _; simp [Std_BitGetLittleEndian, Std_BitSetLittleEndian, Nat.mod_one]
  | succ w ih =>
    intro buf v pos hb
    rw [Std_BitSetLittleEndian, Std_BitGetLittleEndian]
    rw [leSet_outside _ _ _ _ _ (by omega)]
    rw [Std_BitGet_writeBit_self _ _ _ (by omega)]
    rw [ih _ _ _ (by rw [length_writeBit]; omega)]
    have hsplit : v % 2 ^ (w + 1) = v % 2 + 2 * (v / 2 % 2 ^ w) := by
      have h2 : (2 : Nat) ^ (w + 1) = 2 * 2 ^ w := by ring
      rw [h2, Nat.mod_mul]
    rw [hsplit, Nat.testBit_zero]
    rcases Nat.mod_two_eq_zero_or_one v with hv | hv <;> simp [hv]

/-! ### Big-endian field codec lemmas -/

theorem beIdx_lt (p n : Nat) (h : p < 8 * n) : beIdx p < 8 * n := by
  unfold beIdx; omega

theorem beIdx_inj {p q : Nat} (h : beIdx p = beIdx q) : p = q := by
  unfold beIdx at h; omega

theorem length_beSetAux : ∀ (w : Nat) (buf : List Nat) (l v : Nat),
    (beSetAux buf l v w).length = buf.length := by
  intro w
  induction w with
  | zero => intro buf l v; rfl
  | succ w ih =>
    intro buf l v
    rw [beSetAux, ih, length_writeBit]

theorem beSetAux_outside : ∀ (w : Nat) (buf : List Nat) (l v p : Nat),
    (∀ j, j < w → p ≠ beIdx (l + j)) →
    Std_BitGet (beSetAux buf l v w) p = Std_BitGet buf p := by
  intro w
  induction w with
  | zero => intro buf l v p _; rfl
  | succ w ih =>
    intro buf l v p hp
    rw [beSetAux, ih _ _ _ _ (fun j hj => by
      have := hp (j + 1) (by omega)
      simpa [Nat.add_assoc, Nat.add_comm 1 j] using this)]
    exact Std_BitGet_writeBit_ne _ _ _ _ (by simpa using hp 0 (by omega))

theorem beGetAux_beSetAux : ∀ (w : Nat) (buf : List Nat) (l v : Nat),
    l + w ≤ 8 * buf.length →
    beGetAux (beSetAux buf l v w) l w = v % 2 ^ w := by
  intro w
  induction w with
  | zero => intro buf l v _; simp [beGetAux, beSetAux, Nat.mod_one]
  | succ w ih =>
    intro buf l v hb
    rw [beSetAux, beGetAux]
    rw [beSetAux_outside _ _ _ _ _ (fun j hj hh => by
      have hne : l ≠ l + 1 + j := by omega
      exact hne (beIdx_inj hh))]
    rw [Std_BitGet_writeBit_self _ _ _ (beIdx_lt _ _ (by omega))]
    rw [ih _ _ _ (by rw [length_writeBit]; omega)]
    have hsplit : v % 2 ^ (w + 1) = 2 ^ w * (v / 2 ^ w % 2) + v % 2 ^ w := by
      have h2 : (2 : Nat) ^ (w + 1) = 2 ^ w * 2 := by ring
      rw [h2, Nat.mod_mul]
      omega
    rw [hsplit, Nat.testBit_to_div_mod]
    rcases Nat.mod_two_eq_zero_or_one (v / 2 ^ w) with hv | hv <;> simp [hv]

/-! ### 32-bit mask arithmetic for comStoreSignalValue -/

theorem mask_eq (w : Nat) (hw : w ≤ 32) :
    (0xFFFFFFFF : Nat) >>> (32 - w) = 2 ^ w - 1 := by
  have h32 : (0xFFFFFFFF : Nat) = 2 ^ 32 - 1 := by norm_num
  rw [h32, Nat.shiftRight_eq_div_pow]
  have hkw : 2 ^ (32 - w) * 2 ^ w = 2 ^ 32 := by
    rw [← pow_add]
    congr 1
    omega
  have hA : 1 ≤ 2 ^ (32 - w) := Nat.one_le_two_pow
  have hB : 1 ≤ 2 ^ w := Nat.one_le_two_pow
  have hA32 : 2 ^ (32 - w) ≤ 2 ^ 32 := by
    rw [← hkw]
    exact Nat.le_mul_of_pos_right _ (by omega)
  have hm : 2 ^ (32 - w) * (2 ^ w - 1) = 2 ^ 32 - 2 ^ (32 - w) := by
    rw [Nat.mul_sub_one, hkw]
  have hsplit : 2 ^ 32 - 1 = 2 ^ (32 - w) * (2 ^ w - 1) + (2 ^ (32 - w) - 1) := by
    rw [hm]
    omega
  rw [hsplit, Nat.mul_add_div (by positivity), Nat.div_eq_of_lt (by omega)]
  omega

theorem half_mask_eq (w : Nat) (hw : 1 ≤ w) :
    (2 ^ w - 1 : Nat) >>> 1 = 2 ^ (w - 1) - 1 := by
  rw [Nat.shiftRight_eq_div_pow, pow_one]
  have h2 : (2 : Nat) ^ w = 2 * 2 ^ (w - 1) := by
    rcases Nat.exists_eq_add_of_le hw with ⟨c, hc⟩
    have : w - 1 = c := by omega
    rw [this, hc]
    ring_nf
  have hB : 1 ≤ 2 ^ (w - 1) := Nat.one_le_two_pow
  omega

/-- testBit of the sign mask 2^32 - 2^(w-1). -/
theorem signmask_testBit (w i : Nat) (hw1 : 1 ≤ w) (hw2 : w ≤ 32) :
    (2 ^ 32 - 2 ^ (w - 1) : Nat).testBit i =
      (decide (w - 1 ≤ i) && decide (i < 32)) := by
  have hM : (2 ^ 32 - 2 ^ (w - 1) : Nat) = (2 ^ (33 - w) - 1) <<< (w - 1) := by
    rw [Nat.shiftLeft_eq]
    have hh : 2 ^ (33 - w) * 2 ^ (w - 1) = 2 ^ 32 := by
      rw [← pow_add]
      congr 1
      omega
    have hB : 1 ≤ 2 ^ (w - 1) := Nat.one_le_two_pow
    rw [Nat.sub_one_mul]
    omega
  rw [hM, Nat.testBit_shiftLeft, Nat.testBit_two_pow_sub_one]
  by_cases h1 : w - 1 ≤ i <;> by_cases h2 : i < 32 <;>
    simp [h1, h2] <;> omega

theorem signmask_eq (w : Nat) (hw1 : 1 ≤ w) (hw2 : w ≤ 32) :
    (0xFFFFFFFF : Nat) ^^^ ((2 ^ w - 1) >>> 1) = 2 ^ 32 - 2 ^ (w - 1) := by
  rw [half_mask_eq w hw1]
  have h32 : (0xFFFFFFFF : Nat) = 2 ^ 32 - 1 := by norm_num
  rw [h32]
  apply Nat.eq_of_testBit_eq
  intro i
  rw [Nat.testBit_xor, Nat.testBit_two_pow_sub_one, Nat.testBit_two_pow_sub_one,
    signmask_testBit w i hw1 hw2]
  by_cases h1 : i < 32 <;> by_cases h2 : i < w - 1 <;> by_cases h3 : w - 1 ≤ i <;>
    simp [h1, h2, h3] <;> omega

theorem land_two_pow_sub_one (s w : Nat) (h : s < 2 ^ w) : s &&& (2 ^ w - 1) = s := by
  apply Nat.eq_of_testBit_eq
  intro i
  rw [Nat.testBit_and, Nat.testBit_two_pow_sub_one]
  by_cases hi : i < w
  · simp [hi]
  · have : s < 2 ^ i := lt_of_lt_of_le h (Nat.pow_le_pow_right (by norm_num) (by omega))
    simp [Nat.testBit_lt_two_pow this, hi]

/-- Low values do not meet the sign mask. -/
theorem land_signmask_zero (s w : Nat) (hw1 : 1 ≤ w) (hw2 : w ≤ 32)
    (h : s < 2 ^ (w - 1)) : s &&& (2 ^ 32 - 2 ^ (w - 1)) = 0 := by
  apply Nat.eq_of_testBit_eq
  intro i
  rw [Nat.testBit_and, signmask_testBit w i hw1 hw2, Nat.zero_testBit]
  by_cases hi : w - 1 ≤ i
  · have : s < 2 ^ i := lt_of_lt_of_le h (Nat.pow_le_pow_right (by norm_num) hi)
    simp [Nat.testBit_lt_two_pow this]
  · simp [hi]

/-- Values with the field sign bit set do meet the sign mask. -/
theorem land_signmask_ne_zero (s w : Nat) (hw1 : 1 ≤ w) (hw2 : w ≤ 32)
    (hs1 : 2 ^ (w - 1) ≤ s) (hs2 : s < 2 ^ w) :
    s &&& (2 ^ 32 - 2 ^ (w - 1)) ≠ 0 := by
  intro hz
  have hbit : (s &&& (2 ^ 32 - 2 ^ (w - 1))).testBit (w - 1) = false := by
    rw [hz]; exact Nat.zero_testBit _
  rw [Nat.testBit_and, signmask_testBit w (w - 1) hw1 hw2] at hbit
  have hsb : s.testBit (w - 1) = true := by
    rw [Nat.testBit_to_div_mod]
    have h2 : (2 : Nat) ^ w = 2 ^ (w - 1) * 2 := by
      rw [← pow_succ]
      congr 1
      omega
    have hdiv : s / 2 ^ (w - 1) = 1 := by
      apply Nat.div_eq_of_lt_le <;> omega
    simp [hdiv]
  rw [hsb] at hbit
  simp at hbit
  omega

/-- testBit of t + c * 2^k for t < 2^k: low bits come from t, high from c. -/
theorem testBit_add_mul_two_pow (t c k i : Nat) (ht : t < 2 ^ k) :
    (t + c * 2 ^ k).testBit i = if i < k then t.testBit i else c.testBit (i - k) := by
  by_cases hik : i < k
  · rw [if_pos hik]
    have hmod : (t + c * 2 ^ k) % 2 ^ k = t := by
      rw [Nat.add_mul_mod_self_right, Nat.mod_eq_of_lt ht]
    have h1 : ((t + c * 2 ^ k) % 2 ^ k).testBit i = (t + c * 2 ^ k).testBit i := by
      rw [Nat.testBit_mod_two_pow]
      simp [hik]
    rw [← h1, hmod]
  · rw [if_neg hik]
    have hdiv : (t + c * 2 ^ k) >>> k = c := by
      rw [Nat.shiftRight_eq_div_pow, Nat.add_mul_div_right _ _ (by positivity),
        Nat.div_eq_of_lt ht]
      omega
    have h1 : ((t + c * 2 ^ k) >>> k).testBit (i - k) = (t + c * 2 ^ k).testBit i := by
      rw [Nat.testBit_shiftRight]
      congr 1
      omega
    rw [← h1, hdiv]

/-- The sign-extension OR followed by narrowing, computed additively. -/
theorem lor_signmask_mod (s w nw : Nat) (hw1 : 1 ≤ w) (hwnw : w ≤ nw) (hnw : nw ≤ 32)
    (_hs : s < 2 ^ w) :
    (s ||| (2 ^ 32 - 2 ^ (w - 1))) % 2 ^ nw = s % 2 ^ (w - 1) + (2 ^ nw - 2 ^ (w - 1)) := by
  have hw2 : w ≤ 32 := le_trans hwnw hnw
  have ht : s % 2 ^ (w - 1) < 2 ^ (w - 1) := Nat.mod_lt _ (by positivity)
  have hRHS : s % 2 ^ (w - 1) + (2 ^ nw - 2 ^ (w - 1)) =
      s % 2 ^ (w - 1) + (2 ^ (nw - w + 1) - 1) * 2 ^ (w - 1) := by
    have hh : 2 ^ (nw - w + 1) * 2 ^ (w - 1) = 2 ^ nw := by
      rw [← pow_add]
      congr 1
      omega
    have hB : 1 ≤ 2 ^ (w - 1) := Nat.one_le_two_pow
    rw [Nat.sub_one_mul]
    omega
  rw [hRHS]
  apply Nat.eq_of_testBit_eq
  intro i
  rw [Nat.testBit_mod_two_pow, Nat.testBit_or,
    testBit_add_mul_two_pow _ _ _ _ ht, signmask_testBit w i hw1 hw2]
  by_cases hik : i < w - 1
  · have hlow : (s % 2 ^ (w - 1)).testBit i = s.testBit i := by
      rw [Nat.testBit_mod_two_pow]
      simp [hik]
    simp only [if_pos hik, hlow]
    have h1 : i < nw := by omega
    have h2 : ¬(w - 1 ≤ i) := by omega
    simp [h1, h2]
  · simp only [if_neg hik]
    rw [Nat.testBit_two_pow_sub_one]
    by_cases h1 : i < nw
    · have h2 : w - 1 ≤ i := by omega
      have h3 : i < 32 := by omega
      have h4 : i - (w - 1) < nw - w + 1 := by omega
      simp [h1, h2, h3, h4]
    · have h4 : ¬(i - (w - 1) < nw - w + 1) := by omega
      simp [h1, h4]

theorem toUnsigned_lt (w : Nat) (x : Int) : toUnsigned w x < 2 ^ w := by
  unfold toUnsigned
  have hcast : ((2 ^ w : Nat) : Int) = (2 : Int) ^ w := by push_cast; ring
  have h1 : (0 : Int) < 2 ^ w := by positivity
  have h2 : x % 2 ^ w < 2 ^ w := Int.emod_lt_of_pos x h1
  have h3 : 0 ≤ x % 2 ^ w := Int.emod_nonneg x (by positivity)
  omega

/-- Correctness of the masked / sign-extended / narrowed value computed by
comStoreSignalValue on the w-bit field readback of a value sent from an
nw-bit signed slot. -/
theorem store_signed_val (w nw : Nat) (x : Int) (hw1 : 1 ≤ w) (hw2 : w ≤ 32)
    (hnw1 : 1 ≤ nw) (hnw2 : nw ≤ 32)
    (hx1 : -((2 : Int) ^ (min w nw - 1)) ≤ x) (hx2 : x < (2 : Int) ^ (min w nw - 1)) :
    toSigned nw
      (if toUnsigned nw x % 2 ^ w &&& (2 ^ 32 - 2 ^ (w - 1)) ≠ 0
       then (toUnsigned nw x % 2 ^ w ||| (2 ^ 32 - 2 ^ (w - 1))) % 2 ^ nw
       else toUnsigned nw x % 2 ^ w % 2 ^ nw) = x := by
  have hcastm : ((2 ^ (min w nw - 1) : Nat) : Int) = (2 : Int) ^ (min w nw - 1) := by
    push_cast; ring
  have hcastnw : ((2 ^ nw : Nat) : Int) = (2 : Int) ^ nw := by push_cast; ring
  have hmw : min w nw - 1 ≤ w - 1 := by omega
  have hmnw : min w nw - 1 ≤ nw - 1 := by omega
  have hpow_m_w : (2 : Nat) ^ (min w nw - 1) ≤ 2 ^ (w - 1) :=
    Nat.pow_le_pow_right (by norm_num) hmw
  have hpow_m_nw : (2 : Nat) ^ (min w nw - 1) ≤ 2 ^ (nw - 1) :=
    Nat.pow_le_pow_right (by norm_num) hmnw
  have hnw_split : (2 : Nat) ^ nw = 2 ^ (nw - 1) * 2 := by
    rw [← pow_succ]
    congr 1
    omega
  have hw_split : (2 : Nat) ^ w = 2 ^ (w - 1) * 2 := by
    rw [← pow_succ]
    congr 1
    omega
  rcases le_or_lt 0 x with hx | hx
  · -- non-negative values: no sign extension
    have ha : (x.toNat : Int) = x := Int.toNat_of_nonneg hx
    set a := x.toNat with hadef
    have haval : a < 2 ^ (min w nw - 1) := by omega
    have ha_w1 : a < 2 ^ (w - 1) := lt_of_lt_of_le haval hpow_m_w
    have ha_nw1 : a < 2 ^ (nw - 1) := lt_of_lt_of_le haval hpow_m_nw
    have ha_nw : a < 2 ^ nw := by omega
    have ha_w : a < 2 ^ w := by omega
    have hraw : toUnsigned nw x = a := by
      unfold toUnsigned
      have : x % 2 ^ nw = x := Int.emod_eq_of_lt hx (by omega)
      rw [this]
    rw [hraw, Nat.mod_eq_of_lt ha_w]
    rw [if_neg (fun hcon => hcon (land_signmask_zero a w hw1 hw2 ha_w1))]
    rw [Nat.mod_eq_of_lt ha_nw]
    unfold toSigned
    rw [if_pos ha_nw1]
    exact ha
  · -- negative values: sign extension restores the value
    have hy : ((-x).toNat : Int) = -x := Int.toNat_of_nonneg (by omega)
    set y := (-x).toNat with hydef
    have hy1 : 1 ≤ y := by omega
    have hy2 : y ≤ 2 ^ (min w nw - 1) := by omega
    have hy_w1 : y ≤ 2 ^ (w - 1) := le_trans hy2 hpow_m_w
    have hy_nw1 : y ≤ 2 ^ (nw - 1) := le_trans hy2 hpow_m_nw
    have hraw : toUnsigned nw x = 2 ^ nw - y := by
      unfold toUnsigned
      have hmod : x % 2 ^ nw = x + 2 ^ nw := by
        have h1 : (x + 2 ^ nw) % 2 ^ nw = x % 2 ^ nw := by
          have h0 := @Int.add_mul_emod_self_left x ((2 : Int) ^ nw) 1
          rw [mul_one] at h0
          exact h0
        have h2 : (x + 2 ^ nw) % 2 ^ nw = x + 2 ^ nw :=
          Int.emod_eq_of_lt (by omega) (by omega)
        omega
      rw [hmod]
      omega
    rw [hraw]
    rcases le_or_lt w nw with hwnw | hnww
    · -- w ≤ nw : the sign branch is taken
      have hmin : min w nw = w := by omega
      rw [hmin] at hy2
      have hs : (2 ^ nw - y) % 2 ^ w = 2 ^ w - y := by
        have hpow_w_nw : (2 : Nat) ^ w ≤ 2 ^ nw :=
          Nat.pow_le_pow_right (by norm_num) hwnw
        have hsplit : (2 : Nat) ^ nw - y = 2 ^ w * (2 ^ (nw - w) - 1) + (2 ^ w - y) := by
          have hh : 2 ^ w * 2 ^ (nw - w) = 2 ^ nw := by
            rw [← pow_add]
            congr 1
            omega
          rw [Nat.mul_sub_one, hh]
          omega
        rw [hsplit, Nat.mul_add_mod, Nat.mod_eq_of_lt (by omega)]
      rw [hs]
      have hs1 : 2 ^ (w - 1) ≤ 2 ^ w - y := by omega
      have hs2 : 2 ^ w - y < 2 ^ w := by omega
      rw [if_pos (land_signmask_ne_zero _ w hw1 hw2 hs1 hs2)]
      rw [lor_signmask_mod _ w nw hw1 hwnw hnw2 hs2]
      have hsm : (2 ^ w - y) % 2 ^ (w - 1) = 2 ^ (w - 1) - y := by
        have hsplit : (2 : Nat) ^ w - y = 2 ^ (w - 1) + (2 ^ (w - 1) - y) := by omega
        rw [hsplit, Nat.add_mod_left, Nat.mod_eq_of_lt (by omega)]
      rw [hsm]
      have hpow_w1_nw : (2 : Nat) ^ (w - 1) ≤ 2 ^ (nw - 1) :=
        Nat.pow_le_pow_right (by norm_num) (by omega)
      have hval : 2 ^ (w - 1) - y + (2 ^ nw - 2 ^ (w - 1)) = 2 ^ nw - y := by omega
      rw [hval]
      unfold toSigned
      rw [if_neg (by omega)]
      omega
    · -- nw < w : the value already fits, no sign bits meet the mask
      have hmin : min w nw = nw := by omega
      rw [hmin] at hy2
      have hpow_nw_w1 : (2 : Nat) ^ nw ≤ 2 ^ (w - 1) :=
        Nat.pow_le_pow_right (by norm_num) (by omega)
      have hs : (2 ^ nw - y) % 2 ^ w = 2 ^ nw - y := Nat.mod_eq_of_lt (by omega)
      rw [hs]
      have hz : (2 ^ nw - y) &&& (2 ^ 32 - 2 ^ (w - 1)) = 0 :=
        land_signmask_zero _ w hw1 hw2 (by omega)
      rw [if_neg (fun hcon => hcon hz)]
      rw [Nat.mod_eq_of_lt (by omega)]
      unfold toSigned
      rw [if_neg (by omega)]
      omega

/-! ### Packer-level helper lemmas -/

theorem comGetSignalValue_signed (sg : Com_SignalConfigType)
    (hty : sg.type = .COM_SINT8 ∨ sg.type = .COM_SINT16 ∨ sg.type = .COM_SINT32)
    (v : Nat) :
    comGetSignalValue sg (.scalar v) = some (v % 2 ^ nativeWidth sg.type) := by
  rcases hty with h | h | h <;> simp [comGetSignalValue, h, readScalar, nativeWidth]

theorem comStoreSignalValue_signed (sg : Com_SignalConfigType) (x : Int)
    (hty : sg.type = .COM_SINT8 ∨ sg.type = .COM_SINT16 ∨ sg.type = .COM_SINT32)
    (hw1 : 1 ≤ sg.BitSize) (hw2 : sg.BitSize ≤ 32)
    (hx1 : -((2 : Int) ^ (min sg.BitSize (nativeWidth sg.type) - 1)) ≤ x)
    (hx2 : x < (2 : Int) ^ (min sg.BitSize (nativeWidth sg.type) - 1)) :
    ∃ r, comStoreSignalValue sg (toUnsigned (nativeWidth sg.type) x % 2 ^ sg.BitSize) =
        some (.scalar r) ∧
      toSigned (nativeWidth sg.type) r = x := by
  rcases hty with h | h | h <;>
    rw [h] at hx1 hx2 ⊢ <;>
    simp only [nativeWidth] at hx1 hx2 ⊢ <;>
    [(have hmod : toUnsigned 8 x % 2 ^ sg.BitSize < 2 ^ sg.BitSize :=
        Nat.mod_lt _ (by positivity));
     (have hmod : toUnsigned 16 x % 2 ^ sg.BitSize < 2 ^ sg.BitSize :=
        Nat.mod_lt _ (by positivity));
     (have hmod : toUnsigned 32 x % 2 ^ sg.BitSize < 2 ^ sg.BitSize :=
        Nat.mod_lt _ (by positivity))] <;>
  · simp only [comStoreSignalValue, h]
    rw [mask_eq sg.BitSize hw2, land_two_pow_sub_one _ _ hmod,
      signmask_eq sg.BitSize hw1 hw2]
    refine ⟨_, rfl, ?_⟩
    rw [apply_ite (· % 2 ^ _)]
    exact store_signed_val sg.BitSize _ x hw1 hw2 (by norm_num) (by norm_num) hx1 hx2

/-- Claim C1: for every signed signal kind (SINT8, SINT16, SINT32) with
field width w in [1,32] and endian codec packing (endianness not OPAQUE,
no update bit), every value x in the signed range of width min(w, native
width) round-trips: unpacking immediately after packing x returns x,
because the receive path masks the extracted 32-bit word to w bits and,
when bit w-1 is set, ORs in the one-complement of the field mask before
narrowing to the destination type. -/
theorem C1_signed_roundtrip (sg : Com_SignalConfigType) (buf : List Nat) (x : Int)
    (hty : sg.type = .COM_SINT8 ∨ sg.type = .COM_SINT16 ∨ sg.type = .COM_SINT32)
    (hend : sg.Endianness ≠ .OPAQUE)
    (hub : sg.UpdateBit = none)
    (hw1 : 1 ≤ sg.BitSize) (hw2 : sg.BitSize ≤ 32)
    (hbounds : sigFieldInBounds sg buf.length)
    (hx1 : -((2 : Int) ^ (min sg.BitSize (nativeWidth sg.type) - 1)) ≤ x)
    (hx2 : x < (2 : Int) ^ (min sg.BitSize (nativeWidth sg.type) - 1)) :
    ∃ bufr r,
      comSendSignal sg (.scalar (toUnsigned (nativeWidth sg.type) x)) buf = (E_OK, bufr) ∧
      comReceiveSignal sg bufr = (E_OK, bufr, some (.scalar r)) ∧
      toSigned (nativeWidth sg.type) r = x := by
  have htyne : sg.type ≠ .COM_UINT8N := by
    rcases hty with h | h | h <;> rw [h] <;> intro hh <;> exact absurd hh (by decide)
  have hnot : ¬(sg.type = .COM_UINT8N ∨ sg.Endianness = .OPAQUE) := by
    intro hh
    rcases hh with hh | hh
    · exact htyne hh
    · exact hend hh
  have hraw_lt : toUnsigned (nativeWidth sg.type) x < 2 ^ nativeWidth sg.type :=
    toUnsigned_lt _ _
  have hget : comGetSignalValue sg (.scalar (toUnsigned (nativeWidth sg.type) x)) =
      some (toUnsigned (nativeWidth sg.type) x) := by
    rw [comGetSignalValue_signed sg hty, Nat.mod_eq_of_lt hraw_lt]
  obtain ⟨r, hstore, hr⟩ := comStoreSignalValue_signed sg x hty hw1 hw2 hx1 hx2
  cases hE : sg.Endianness with
  | OPAQUE => exact absurd hE hend
  | LITTLE =>
    refine ⟨Std_BitSetLittleEndian buf (toUnsigned (nativeWidth sg.type) x)
      (8 * sg.ptrOff + sg.BitPosition) sg.BitSize, r, ?_, ?_, hr⟩
    · unfold comSendSignal comSendSignalData
      rw [if_neg hnot, hE]
      simp only [hget, comSetUpdateBit, hub]
    · unfold comReceiveSignal
      rw [hub]
      unfold comReceiveSignalData
      rw [if_neg hnot, hE]
      simp only [sigFieldInBounds, hE] at hbounds
      rw [leGet_leSet _ _ _ _ (by omega), hstore]
  | BIG =>
    refine ⟨Std_BitSetBigEndian buf (toUnsigned (nativeWidth sg.type) x)
      (8 * sg.ptrOff + sg.BitPosition) sg.BitSize, r, ?_, ?_, hr⟩
    · unfold comSendSignal comSendSignalData
      rw [if_neg hnot, hE]
      simp only [hget, comSetUpdateBit, hub]
    · unfold comReceiveSignal
      rw [hub]
      unfold comReceiveSignalData
      rw [if_neg hnot, hE]
      simp only [sigFieldInBounds, hE] at hbounds
      unfold Std_BitSetBigEndian Std_BitGetBigEndian
      rw [beGetAux_beSetAux _ _ _ _ (by omega), hstore]

/-- Claim C1 witness: a SINT8 little-endian signal of width 4 at bit 3
round-trips the value -3. -/
theorem C1_witness :
    ∃ bufr r,
      comSendSignal sigW1 (.scalar (toUnsigned (nativeWidth sigW1.type) (-3))) [0, 0] =
        (E_OK, bufr) ∧
      comReceiveSignal sigW1 bufr = (E_OK, bufr, some (.scalar r)) ∧
      toSigned (nativeWidth sigW1.type) r = -3 :=
  C1_signed_roundtrip sigW1 [0, 0] (-3) (by decide) (by decide) (by decide)
    (by decide) (by decide) (by simp [sigFieldInBounds, sigW1]) (by decide) (by decide)

/-! ### Length preservation of the packer operations -/

theorem length_memcpyInto : ∀ (src : List Nat) (buf : List Nat) (off : Nat),
    (memcpyInto buf off src).length = buf.length := by
  intro src
  induction src with
  | nil => intro buf off; rfl
  | cons b rest ih =>
    intro buf off
    rw [memcpyInto, ih]
    simp

theorem length_comSendSignalData (sg : Com_SignalConfigType) (d : SigData) (buf : List Nat) :
    (comSendSignalData sg d buf).2.length = buf.length := by
  unfold comSendSignalData
  split
  · exact length_memcpyInto _ _ _
  · cases sg.Endianness with
    | BIG =>
      cases comGetSignalValue sg d <;>
        simp [Std_BitSetBigEndian, length_beSetAux]
    | LITTLE =>
      cases comGetSignalValue sg d <;>
        simp [length_leSet]
    | OPAQUE => rfl

theorem length_comSetUpdateBit (sg : Com_SignalConfigType) (buf : List Nat) :
    (comSetUpdateBit sg buf).length = buf.length := by
  unfold comSetUpdateBit
  cases sg.UpdateBit <;> simp [length_Std_BitSet]

theorem length_comSendSignal (sg : Com_SignalConfigType) (d : SigData) (buf : List Nat) :
    (comSendSignal sg d buf).2.length = buf.length := by
  unfold comSendSignal
  rw [length_comSetUpdateBit, length_comSendSignalData]

theorem length_comIPduDataInit : ∀ (sigs : List Com_SignalConfigType) (buf : List Nat),
    (comIPduDataInit sigs buf).length = buf.length := by
  intro sigs
  induction sigs with
  | nil => intro buf; rfl
  | cons sg rest ih =>
    intro buf
    unfold comIPduDataInit at ih ⊢
    rw [List.foldl_cons, ih, length_comSendSignal]

theorem length_comTxClearUpdateBit : ∀ (sigs : List Com_SignalConfigType) (buf : List Nat),
    (comTxClearUpdateBit sigs buf).length = buf.length := by
  intro sigs
  induction sigs with
  | nil => intro buf; rfl
  | cons sg rest ih =>
    intro buf
    unfold comTxClearUpdateBit at ih ⊢
    rw [List.foldl_cons, ih]
    cases sg.UpdateBit <;> simp [length_Std_BitClear]

/-! ### Receive-path result shape -/

theorem comStoreSignalValue_isSome (sg : Com_SignalConfigType) (v : Nat)
    (h8n : sg.type ≠ .COM_UINT8N) (hgr : sg.type ≠ .COM_GROUP_SIGNAL) :
    ∃ dv, comStoreSignalValue sg v = some dv := by
  rw [← Option.ne_none_iff_exists']
  cases htype : sg.type
  case COM_UINT8N => exact absurd htype h8n
  case COM_GROUP_SIGNAL => exact absurd htype hgr
  all_goals simp [comStoreSignalValue, htype]

theorem comReceiveSignalData_ok (sg : Com_SignalConfigType) (buf : List Nat)
    (hsupp : sg.type ≠ .COM_GROUP_SIGNAL ∨ sg.Endianness = .OPAQUE) :
    ∃ v, comReceiveSignalData sg buf = (E_OK, buf, some v) := by
  by_cases hif : sg.type = .COM_UINT8N ∨ sg.Endianness = .OPAQUE
  · refine ⟨.bytes (readBytes buf sg.ptrOff (sg.BitSize >>> 3)), ?_⟩
    unfold comReceiveSignalData
    rw [if_pos hif]
  · push_neg at hif
    have hgr : sg.type ≠ .COM_GROUP_SIGNAL := by
      rcases hsupp with h | h
      · exact h
      · exact absurd h hif.2
    cases hE : sg.Endianness with
    | OPAQUE => exact absurd hE hif.2
    | BIG =>
      obtain ⟨dv, hdv⟩ := comStoreSignalValue_isSome sg
        (Std_BitGetBigEndian buf (8 * sg.ptrOff + sg.BitPosition) sg.BitSize) hif.1 hgr
      refine ⟨dv, ?_⟩
      unfold comReceiveSignalData
      rw [if_neg (by intro hh; rcases hh with hh | hh; exact hif.1 hh; exact hif.2 hh), hE, hdv]
    | LITTLE =>
      obtain ⟨dv, hdv⟩ := comStoreSignalValue_isSome sg
        (Std_BitGetLittleEndian buf (8 * sg.ptrOff + sg.BitPosition) sg.BitSize) hif.1 hgr
      refine ⟨dv, ?_⟩
      unfold comReceiveSignalData
      rw [if_neg (by intro hh; rcases hh with hh | hh; exact hif.1 hh; exact hif.2 hh), hE, hdv]

theorem comSendSignal_sets_update_bit (sg : Com_SignalConfigType) (d : SigData)
    (buf : List Nat) (u : Nat) (hu : sg.UpdateBit = some u)
    (hin : 8 * sg.ptrOff + u < 8 * buf.length) :
    Std_BitGet (comSendSignal sg d buf).2 (8 * sg.ptrOff + u) = true := by
  unfold comSendSignal comSetUpdateBit
  simp only [hu]
  exact Std_BitGet_Std_BitSet_self _ _ (by rw [length_comSendSignalData]; omega)

/-- Unfolding equation for Com_SendSignal on a valid id and non-NULL source. -/
theorem Com_SendSignal_eq (cfg : Com_ConfigType) (id : Nat) (d : SigData) (st : ComState)
    (sg : Com_SignalConfigType)
    (hid : id < cfg.SignalConfigs.length)
    (hsg : cfg.SignalConfigs.getD id dfltSig = sg) :
    Com_SendSignal cfg id (some d) st =
      some ((comSendSignal sg d (st.bufs.getD sg.pduIdx [])).1,
        { st with bufs := (st.bufs.set sg.pduIdx
            (comSendSignal sg d (st.bufs.getD sg.pduIdx [])).2) }) := by
  simp only [Com_SendSignal]
  rw [if_pos hid, hsg]

/-- Unfolding equation for Com_ReceiveSignal on a valid id and non-NULL
destination. -/
theorem Com_ReceiveSignal_eq (cfg : Com_ConfigType) (id : Nat) (st : ComState)
    (sg : Com_SignalConfigType)
    (hid : id < cfg.SignalConfigs.length)
    (hsg : cfg.SignalConfigs.getD id dfltSig = sg) :
    Com_ReceiveSignal cfg id true st =
      ((comReceiveSignal sg (st.bufs.getD sg.pduIdx [])).1,
       { st with bufs := (st.bufs.set sg.pduIdx
           (comReceiveSignal sg (st.bufs.getD sg.pduIdx [])).2.1) },
       (comReceiveSignal sg (st.bufs.getD sg.pduIdx [])).2.2) := by
  simp only [Com_ReceiveSignal]
  rw [if_pos ⟨hid, by trivial⟩, hsg]

/-- Claim C2: for a signal with an update bit (and a kind the receive
path supports), send_signal sets the update bit; the next receive_signal
finds it set, clears it, reads a value and returns Ok; a second
receive_signal without an intervening send finds the bit clear and
returns NotOk leaving the state untouched. -/
theorem C2_update_bit_gating (cfg : Com_ConfigType) (id : Nat) (d : SigData)
    (st : ComState) (sg : Com_SignalConfigType) (u : Nat)
    (hid : id < cfg.SignalConfigs.length)
    (hsg : cfg.SignalConfigs.getD id dfltSig = sg)
    (hu : sg.UpdateBit = some u)
    (hsupp : sg.type ≠ .COM_GROUP_SIGNAL ∨ sg.Endianness = .OPAQUE)
    (hpdu : sg.pduIdx < st.bufs.length)
    (hubin : 8 * sg.ptrOff + u < 8 * (st.bufs.getD sg.pduIdx []).length) :
    ∃ r1 st1 st2 v,
      Com_SendSignal cfg id (some d) st = some (r1, st1) ∧
      Std_BitGet (st1.bufs.getD sg.pduIdx []) (8 * sg.ptrOff + u) = true ∧
      Com_ReceiveSignal cfg id true st1 = (E_OK, st2, some v) ∧
      Std_BitGet (st2.bufs.getD sg.pduIdx []) (8 * sg.ptrOff + u) = false ∧
      Com_ReceiveSignal cfg id true st2 = (E_NOT_OK, st2, none) := by
  set buf := st.bufs.getD sg.pduIdx [] with hbufdef
  set buf1 := (comSendSignal sg d buf).2 with hbuf1def
  set st1 : ComState := { st with bufs := st.bufs.set sg.pduIdx buf1 } with hst1def
  have hsend := Com_SendSignal_eq cfg id d st sg hid hsg
  have hget1 : st1.bufs.getD sg.pduIdx [] = buf1 := by
    rw [hst1def]
    exact getD_set_self _ _ _ _ hpdu
  have hbit1 : Std_BitGet buf1 (8 * sg.ptrOff + u) = true :=
    comSendSignal_sets_update_bit sg d buf u hu (by omega)
  set buf2 := Std_BitClear buf1 (8 * sg.ptrOff + u) with hbuf2def
  obtain ⟨v, hrd⟩ := comReceiveSignalData_ok sg buf2 hsupp
  have hrecv1 : comReceiveSignal sg buf1 = (E_OK, buf2, some v) := by
    unfold comReceiveSignal
    simp only [hu, hbit1, if_true]
    exact hrd
  have hpdu1 : sg.pduIdx < st1.bufs.length := by
    rw [hst1def]
    simpa using hpdu
  set st2 : ComState := { st1 with bufs := st1.bufs.set sg.pduIdx buf2 } with hst2def
  have hrecvA : Com_ReceiveSignal cfg id true st1 = (E_OK, st2, some v) := by
    rw [Com_ReceiveSignal_eq cfg id st1 sg hid hsg, hget1, hrecv1]
  have hget2 : st2.bufs.getD sg.pduIdx [] = buf2 := by
    rw [hst2def]
    exact getD_set_self _ _ _ _ hpdu1
  have hbit2 : Std_BitGet buf2 (8 * sg.ptrOff + u) = false := by
    rw [hbuf2def]
    exact Std_BitGet_Std_BitClear_self _ _
  have hrecv2 : comReceiveSignal sg buf2 = (E_NOT_OK, buf2, none) := by
    unfold comReceiveSignal
    simp only [hu, hbit2]
    rfl
  have hpdu2 : sg.pduIdx < st2.bufs.length := by
    rw [hst2def]
    simpa using hpdu1
  have hsetself : st2.bufs.set sg.pduIdx buf2 = st2.bufs := by
    conv_lhs => rw [← hget2]
    exact set_getD_self _ _ _ hpdu2
  have hrecvB : Com_ReceiveSignal cfg id true st2 = (E_NOT_OK, st2, none) := by
    rw [Com_ReceiveSignal_eq cfg id st2 sg hid hsg, hget2, hrecv2, hsetself]
  exact ⟨_, st1, st2, v, hsend, by rw [hget1]; exact hbit1, hrecvA,
    by rw [hget2]; exact hbit2, hrecvB⟩

/-- Claim C2 witness at a concrete one-signal configuration. -/
theorem C2_witness :
    ∃ r1 st1 st2 v,
      Com_SendSignal cfgW2 0 (some (.scalar 0x5A)) stW2 = some (r1, st1) ∧
      Std_BitGet (st1.bufs.getD sigW2.pduIdx []) (8 * sigW2.ptrOff + 8) = true ∧
      Com_ReceiveSignal cfgW2 0 true st1 = (E_OK, st2, some v) ∧
      Std_BitGet (st2.bufs.getD sigW2.pduIdx []) (8 * sigW2.ptrOff + 8) = false ∧
      Com_ReceiveSignal cfgW2 0 true st2 = (E_NOT_OK, st2, none) :=
  C2_update_bit_gating cfgW2 0 (.scalar 0x5A) stW2 sigW2 8 (by decide) (by decide)
    (by decide) (by decide) (by decide) (by decide)

/-! ### C3: unsupported kind on the send path -/

theorem comSendSignalData_unsupported (sg : Com_SignalConfigType) (d : SigData)
    (buf : List Nat) (hty : sg.type = .COM_GROUP_SIGNAL)
    (hend : sg.Endianness ≠ .OPAQUE) :
    comSendSignalData sg d buf = (E_NOT_OK, buf) := by
  have hget : comGetSignalValue sg d = none := by
    simp [comGetSignalValue, hty]
  unfold comSendSignalData
  rw [if_neg (by
    intro hh
    rcases hh with hh | hh
    · rw [hty] at hh
      exact absurd hh (by decide)
    · exact hend hh)]
  cases hE : sg.Endianness with
  | OPAQUE => exact absurd hE hend
  | BIG => simp only [hget]
  | LITTLE => simp only [hget]

/-- Claim C3 counterexample: a signal of unsupported kind with an update
bit configured.  send_signal returns NotOk, but the PDU buffer is not
unchanged: the update bit has been set (byte 0 went from 0x00 to 0x01). -/
theorem C3_counterexample :
    Com_SendSignal cfgW3 0 (some (.scalar 3)) stW3 =
      some (E_NOT_OK, { GroupStatus := 1, bufs := [[1]], timers := [0] }) ∧
    ({ GroupStatus := 1, bufs := [[1]], timers := [0] } : ComState) ≠ stW3 := by
  decide

/-- Claim C3 as amended: for a signal whose kind is unsupported by the
send path (COM_GROUP_SIGNAL kind, endianness not OPAQUE), send_signal
returns NotOk and writes no field bits, but the update-bit epilogue still
runs: if an update bit is configured it is set (comSetUpdateBit); only a
signal without an update bit leaves the PDU buffer completely unchanged. -/
theorem C3_unsupported_kind_amended (cfg : Com_ConfigType) (id : Nat) (d : SigData)
    (st : ComState) (sg : Com_SignalConfigType)
    (hid : id < cfg.SignalConfigs.length)
    (hsg : cfg.SignalConfigs.getD id dfltSig = sg)
    (hty : sg.type = .COM_GROUP_SIGNAL)
    (hend : sg.Endianness ≠ .OPAQUE) :
    Com_SendSignal cfg id (some d) st =
      some (E_NOT_OK, { st with bufs := (st.bufs.set sg.pduIdx
        (comSetUpdateBit sg (st.bufs.getD sg.pduIdx []))) }) := by
  rw [Com_SendSignal_eq cfg id d st sg hid hsg]
  unfold comSendSignal
  rw [comSendSignalData_unsupported sg d _ hty hend]

/-- Claim C3 amended witness. -/
theorem C3_witness :
    Com_SendSignal cfgW3 0 (some (.scalar 3)) stW3 =
      some (E_NOT_OK, { stW3 with bufs := (stW3.bufs.set sigW3.pduIdx
        (comSetUpdateBit sigW3 (stW3.bufs.getD sigW3.pduIdx []))) }) :=
  C3_unsupported_kind_amended cfgW3 0 (.scalar 3) stW3 sigW3 (by decide) (by decide)
    (by decide) (by decide)

/-! ### Projection lemmas for the Com_MainFunctionTx loop -/

theorem eventsFor_append (i : Nat) (a b : List ComEvent) :
    eventsFor i (a ++ b) = eventsFor i a ++ eventsFor i b := by
  unfold eventsFor
  exact List.filter_append a b

theorem txOne_other (cfg : Com_ConfigType) (o : Nat → List Nat → Bool)
    (st : ComState) (j i : Nat) (hne : i ≠ j) :
    (comMainTxOne cfg o st j).1.GroupStatus = st.GroupStatus ∧
    (comMainTxOne cfg o st j).1.timers.length = st.timers.length ∧
    (comMainTxOne cfg o st j).1.bufs.length = st.bufs.length ∧
    (comMainTxOne cfg o st j).1.timers.getD i 0 = st.timers.getD i 0 ∧
    (comMainTxOne cfg o st j).1.bufs.getD i [] = st.bufs.getD i [] ∧
    eventsFor i (comMainTxOne cfg o st j).2 = [] := by
  have hjne : j ≠ i := fun hh => hne hh.symm
  have hbeq : (j == i) = false := by
    simp [hjne]
  simp only [comMainTxOne]
  split
  · simp [eventsFor]
  · split
    · simp [eventsFor]
    · split_ifs <;>
        simp [eventsFor, List.filter, hbeq, List.getElem?_set_ne hjne]

theorem txOne_pres (cfg : Com_ConfigType) (o : Nat → List Nat → Bool)
    (st : ComState) (j : Nat) :
    (comMainTxOne cfg o st j).1.GroupStatus = st.GroupStatus ∧
    (comMainTxOne cfg o st j).1.timers.length = st.timers.length ∧
    (comMainTxOne cfg o st j).1.bufs.length = st.bufs.length := by
  simp only [comMainTxOne]
  split
  · simp
  · split
    · simp
    · split_ifs <;> simp

theorem foldTx_not_mem (cfg : Com_ConfigType) (o : Nat → List Nat → Bool) :
    ∀ (l : List Nat) (st : ComState) (evs : List ComEvent) (i : Nat), i ∉ l →
    ∀ res, res = l.foldl (fun acc j =>
        let r := comMainTxOne cfg o acc.1 j
        (r.1, acc.2 ++ r.2)) (st, evs) →
      res.1.GroupStatus = st.GroupStatus ∧
      res.1.timers.length = st.timers.length ∧
      res.1.bufs.length = st.bufs.length ∧
      res.1.timers.getD i 0 = st.timers.getD i 0 ∧
      res.1.bufs.getD i [] = st.bufs.getD i [] ∧
      eventsFor i res.2 = eventsFor i evs := by
  intro l
  induction l with
  | nil =>
    intro st evs i _ res hres
    rw [hres]
    exact ⟨rfl, rfl, rfl, rfl, rfl, rfl⟩
  | cons j rest ih =>
    intro st evs i hmem res hres
    have hne : i ≠ j := by
      intro hh
      exact hmem (by rw [hh]; exact List.mem_cons_self j rest)
    have hmem2 : i ∉ rest := fun hh => hmem (List.mem_cons_of_mem j hh)
    obtain ⟨h1, h2, h3, h4, h5, h6⟩ := txOne_other cfg o st j i hne
    rw [List.foldl_cons] at hres
    obtain ⟨g1, g2, g3, g4, g5, g6⟩ :=
      ih (comMainTxOne cfg o st j).1 (evs ++ (comMainTxOne cfg o st j).2) i hmem2 res hres
    refine ⟨g1.trans h1, g2.trans h2, g3.trans h3, g4.trans h4, g5.trans h5, ?_⟩
    rw [g6, eventsFor_append, h6, List.append_nil]

theorem txOne_congr (cfg : Com_ConfigType) (o : Nat → List Nat → Bool)
    (st st2 : ComState) (i : Nat)
    (hG : st2.GroupStatus = st.GroupStatus)
    (ht : st2.timers.getD i 0 = st.timers.getD i 0)
    (hb : st2.bufs.getD i [] = st.bufs.getD i [])
    (hlt : i < st.timers.length) (hlt2 : i < st2.timers.length)
    (hlb : i < st.bufs.length) (hlb2 : i < st2.bufs.length) :
    (comMainTxOne cfg o st2 i).1.timers.getD i 0 =
      (comMainTxOne cfg o st i).1.timers.getD i 0 ∧
    (comMainTxOne cfg o st2 i).1.bufs.getD i [] =
      (comMainTxOne cfg o st i).1.bufs.getD i [] ∧
    (comMainTxOne cfg o st2 i).2 = (comMainTxOne cfg o st i).2 := by
  have ht2 : st2.timers[i]?.getD 0 = st.timers[i]?.getD 0 := by
    rw [← List.getD_eq_getElem?_getD, ← List.getD_eq_getElem?_getD]
    exact ht
  have hb2 : st2.bufs[i]?.getD [] = st.bufs[i]?.getD [] := by
    rw [← List.getD_eq_getElem?_getD, ← List.getD_eq_getElem?_getD]
    exact hb
  simp only [comMainTxOne]
  split
  · exact ⟨ht, hb, rfl⟩
  · split
    · exact ⟨ht, hb, rfl⟩
    · rw [hG, ht, hb]
      split_ifs <;>
        simp [List.getElem?_set_self hlt, List.getElem?_set_self hlt2,
          List.getElem?_set_self hlb, List.getElem?_set_self hlb2, ht2, hb2]

theorem txOne_events_self (cfg : Com_ConfigType) (o : Nat → List Nat → Bool)
    (st : ComState) (i : Nat) :
    eventsFor i (comMainTxOne cfg o st i).2 = (comMainTxOne cfg o st i).2 := by
  simp only [comMainTxOne]
  split
  · rfl
  · split
    · rfl
    · split_ifs <;> simp [eventsFor, List.filter]

/-- Projection of one Com_MainFunctionTx call onto a single PDU index:
the loop body at index i, applied to a state that agrees with st on
GroupStatus and on component i, determines the i components of the
result and all events for i. -/
theorem mainTx_at (cfg : Com_ConfigType) (o : Nat → List Nat → Bool)
    (st : ComState) (i : Nat) (hi : i < cfg.IPduConfigs.length)
    (hlt : i < st.timers.length) (hlb : i < st.bufs.length) :
    (Com_MainFunctionTx cfg o st).1.GroupStatus = st.GroupStatus ∧
    (Com_MainFunctionTx cfg o st).1.timers.length = st.timers.length ∧
    (Com_MainFunctionTx cfg o st).1.bufs.length = st.bufs.length ∧
    (Com_MainFunctionTx cfg o st).1.timers.getD i 0 =
      (comMainTxOne cfg o st i).1.timers.getD i 0 ∧
    (Com_MainFunctionTx cfg o st).1.bufs.getD i [] =
      (comMainTxOne cfg o st i).1.bufs.getD i [] ∧
    eventsFor i (Com_MainFunctionTx cfg o st).2 = (comMainTxOne cfg o st i).2 := by
  have hsplit : List.range cfg.IPduConfigs.length =
      List.range' 0 i ++ i :: List.range' (i + 1) (cfg.IPduConfigs.length - i - 1) := by
    rw [List.range_eq_range']
    have h1 := List.range'_append_1 0 i (cfg.IPduConfigs.length - i)
    have hlen : cfg.IPduConfigs.length - i + i = cfg.IPduConfigs.length := by omega
    rw [Nat.zero_add, hlen] at h1
    rw [← h1]
    congr 1
    have h2 : cfg.IPduConfigs.length - i = (cfg.IPduConfigs.length - i - 1) + 1 := by omega
    conv_lhs => rw [h2]
    rw [List.range'_succ]
  have hmemA : i ∉ List.range' 0 i := by
    intro hh
    rw [List.mem_range'] at hh
    omega
  have hmemB : i ∉ List.range' (i + 1) (cfg.IPduConfigs.length - i - 1) := by
    intro hh
    rw [List.mem_range'] at hh
    omega
  unfold Com_MainFunctionTx
  rw [hsplit, List.foldl_append, List.foldl_cons]
  obtain ⟨a1, a2, a3, a4, a5, a6⟩ := foldTx_not_mem cfg o (List.range' 0 i) st [] i hmemA _ rfl
  set mid := (List.range' 0 i).foldl (fun acc j =>
      let r := comMainTxOne cfg o acc.1 j
      (r.1, acc.2 ++ r.2)) (st, ([] : List ComEvent)) with hmid
  obtain ⟨c1, c2, c3⟩ := txOne_congr cfg o st mid.1 i a1 a4 a5 hlt (by omega) hlb (by omega)
  obtain ⟨p1, p2, p3⟩ := txOne_pres cfg o mid.1 i
  obtain ⟨b1, b2, b3, b4, b5, b6⟩ := foldTx_not_mem cfg o
    (List.range' (i + 1) (cfg.IPduConfigs.length - i - 1))
    (comMainTxOne cfg o mid.1 i).1 (mid.2 ++ (comMainTxOne cfg o mid.1 i).2) i hmemB _ rfl
  refine ⟨?_, ?_, ?_, ?_, ?_, ?_⟩
  · rw [b1, p1, a1]
  · rw [b2, p2, a2]
  · rw [b3, p3, a3]
  · rw [b4, c1]
  · rw [b5, c2]
  · rw [b6, eventsFor_append, c3, txOne_events_self]
    have ha6 : eventsFor i mid.2 = [] := a6
    rw [ha6, List.nil_append]

theorem txOne_disabled (cfg : Com_ConfigType) (o : Nat → List Nat → Bool)
    (st : ComState) (i : Nat) (ip : Com_IPduConfigType)
    (hip : cfg.IPduConfigs[i]? = some ip)
    (hdis : st.GroupStatus &&& ip.GroupRefMask = 0) :
    comMainTxOne cfg o st i = (st, []) := by
  simp only [comMainTxOne, hip]
  cases ip.txConfig <;> simp [hdis]

theorem txOne_enabled (cfg : Com_ConfigType) (o : Nat → List Nat → Bool)
    (st : ComState) (i : Nat) (ip : Com_IPduConfigType) (tx : Com_TxConfigType)
    (hip : cfg.IPduConfigs[i]? = some ip)
    (htx : ip.txConfig = some tx)
    (hen : st.GroupStatus &&& ip.GroupRefMask ≠ 0)
    (hlt : i < st.timers.length) (hlb : i < st.bufs.length) :
    (comMainTxOne cfg o st i).1.timers.getD i 0 =
      (if st.timers.getD i 0 = 0 then 0
       else if st.timers.getD i 0 = 1 then
         (if o tx.TxPduId ((st.bufs.getD i []).take ip.length) then tx.CycleTime else 1)
       else st.timers.getD i 0 - 1) ∧
    (comMainTxOne cfg o st i).2 =
      (if st.timers.getD i 0 = 1 then
        [ComEvent.transmit i tx.TxPduId ((st.bufs.getD i []).take ip.length)]
       else []) ∧
    (comMainTxOne cfg o st i).1.bufs.getD i [] =
      (if st.timers.getD i 0 = 1 ∧ o tx.TxPduId ((st.bufs.getD i []).take ip.length) = true
       then comTxClearUpdateBit ip.signals (st.bufs.getD i [])
       else st.bufs.getD i []) := by
  simp only [comMainTxOne, hip, htx, List.getD_eq_getElem?_getD]
  rw [if_neg hen]
  by_cases h0 : st.timers[i]?.getD 0 = 0
  · simp [h0]
  · by_cases h1 : st.timers[i]?.getD 0 = 1
    · by_cases ho : o tx.TxPduId ((st.bufs[i]?.getD []).take ip.length) = true
      · simp [h1, ho, List.getD_eq_getElem?_getD, List.getElem?_set_self hlt,
          List.getElem?_set_self hlb]
      · simp [h1, ho, List.getD_eq_getElem?_getD, List.getElem?_set_self hlt]
    · have hpos : 0 < st.timers[i]?.getD 0 := by omega
      have hne1 : ¬(st.timers[i]?.getD 0 - 1 = 0) := by omega
      simp [hpos, hne1, h0, h1, List.getD_eq_getElem?_getD, List.getElem?_set_self hlt]

theorem hasTransmitFor_false (i : Nat) :
    ∀ evs, eventsFor i evs = [] → hasTransmitFor i evs = false := by
  intro evs
  induction evs with
  | nil => intro _; rfl
  | cons e rest ih =>
    intro h
    cases e with
    | transmit j p d =>
      simp only [eventsFor, List.filter_cons] at h
      by_cases hj : (j == i) = true
      · rw [if_pos hj] at h
        exact absurd h (by simp)
      · rw [if_neg hj] at h
        have hr : hasTransmitFor i rest = false := ih (by unfold eventsFor; exact h)
        unfold hasTransmitFor at hr ⊢
        rw [List.any_cons, hr]
        simp at hj
        simp [hj]
    | rxTOut j =>
      simp only [eventsFor, List.filter_cons] at h
      by_cases hj : (j == i) = true
      · rw [if_pos hj] at h
        exact absurd h (by simp)
      · rw [if_neg hj] at h
        have hr : hasTransmitFor i rest = false := ih (by unfold eventsFor; exact h)
        unfold hasTransmitFor at hr ⊢
        rw [List.any_cons, hr]
        simp
    | rxInd j =>
      simp only [eventsFor, List.filter_cons] at h
      by_cases hj : (j == i) = true
      · rw [if_pos hj] at h
        exact absurd h (by simp)
      · rw [if_neg hj] at h
        have hr : hasTransmitFor i rest = false := ih (by unfold eventsFor; exact h)
        unfold hasTransmitFor at hr ⊢
        rw [List.any_cons, hr]
        simp

/-- Claim C4: while a PDU's group mask does not intersect group_status,
Com_MainFunctionTx leaves its timer unchanged and never invokes
PduR_ComTransmit for it, and Com_RxIndication for that PDU does nothing
at all: no byte copy, no timer re-arm, no callback. -/
theorem C4_group_gating (cfg : Com_ConfigType) (o : Nat → List Nat → Bool)
    (st : ComState) (i : Nat) (ip : Com_IPduConfigType) (frame : List Nat)
    (hip : cfg.IPduConfigs[i]? = some ip)
    (hdis : st.GroupStatus &&& ip.GroupRefMask = 0)
    (hlt : i < st.timers.length) (hlb : i < st.bufs.length) :
    (Com_MainFunctionTx cfg o st).1.timers.getD i 0 = st.timers.getD i 0 ∧
    hasTransmitFor i (Com_MainFunctionTx cfg o st).2 = false ∧
    Com_RxIndication cfg i frame st = (st, []) := by
  have hi : i < cfg.IPduConfigs.length := by
    by_contra hcon
    rw [List.getElem?_eq_none (by omega)] at hip
    exact Option.noConfusion hip
  obtain ⟨m1, m2, m3, m4, m5, m6⟩ := mainTx_at cfg o st i hi hlt hlb
  rw [txOne_disabled cfg o st i ip hip hdis] at m4 m6
  refine ⟨m4, hasTransmitFor_false i _ m6, ?_⟩
  simp only [Com_RxIndication, hip]
  cases ip.rxConfig <;> simp [hdis]

/-- Claim C4 witness: a PDU whose mask (bit 1) does not intersect the
group status (bit 0). -/
theorem C4_witness :
    (Com_MainFunctionTx cfgW4 alwaysOk stW4).1.timers.getD 0 0 = stW4.timers.getD 0 0 ∧
    hasTransmitFor 0 (Com_MainFunctionTx cfgW4 alwaysOk stW4).2 = false ∧
    Com_RxIndication cfgW4 0 [7] stW4 = (stW4, []) :=
  C4_group_gating cfgW4 alwaysOk stW4 0 ipW4 [7] (by decide) (by decide)
    (by decide) (by decide)

/-! ### Helpers for the scheduler proofs -/

theorem range_split_at (n i : Nat) (hi : i < n) :
    List.range n = List.range' 0 i ++ i :: List.range' (i + 1) (n - i - 1) := by
  rw [List.range_eq_range']
  have h1 := List.range'_append_1 0 i (n - i)
  have hlen : n - i + i = n := by omega
  rw [Nat.zero_add, hlen] at h1
  rw [← h1]
  congr 1
  have h2 : n - i = (n - i - 1) + 1 := by omega
  conv_lhs => rw [h2]
  rw [List.range'_succ]

theorem succ_mod_formula (C a : Nat) (hC : 1 ≤ C) :
    (a + 1) % C = if a % C + 1 = C then 0 else a % C + 1 := by
  have hlt : a % C < C := Nat.mod_lt _ (by omega)
  rw [Nat.add_mod a 1 C]
  by_cases h : a % C + 1 = C
  · rw [if_pos h]
    have h1C : 1 % C ≤ 1 := Nat.mod_le _ _
    by_cases hC1 : C = 1
    · simp [hC1, Nat.mod_one]
    · have : (1 : Nat) % C = 1 := Nat.mod_eq_of_lt (by omega)
      rw [this, h, Nat.mod_self]
  · rw [if_neg h]
    by_cases hC1 : C = 1
    · omega
    · have h1 : (1 : Nat) % C = 1 := Nat.mod_eq_of_lt (by omega)
      rw [h1]
      exact Nat.mod_eq_of_lt (by omega)

theorem enabled_after_start (a m g : Nat) (hm : m &&& (1 <<< g) ≠ 0) :
    (a ||| (1 <<< g)) &&& m ≠ 0 := by
  have hmg : m.testBit g = true := by
    by_contra hb
    apply hm
    apply Nat.eq_of_testBit_eq
    intro j
    rw [Nat.testBit_and, Nat.shiftLeft_eq, one_mul, Nat.testBit_two_pow, Nat.zero_testBit]
    by_cases hjg : g = j
    · subst hjg
      simp at hb
      simp [hb]
    · simp [hjg]
  intro hz
  have h1 : ((a ||| (1 <<< g)) &&& m).testBit g = false := by
    rw [hz]
    exact Nat.zero_testBit g
  rw [Nat.testBit_and, Nat.testBit_or, Nat.shiftLeft_eq, one_mul, Nat.testBit_two_pow] at h1
  simp [hmg] at h1

theorem foldTx_pres (cfg : Com_ConfigType) (o : Nat → List Nat → Bool) :
    ∀ (l : List Nat) (st : ComState) (evs : List ComEvent),
    ∀ res, res = l.foldl (fun acc j =>
        let r := comMainTxOne cfg o acc.1 j
        (r.1, acc.2 ++ r.2)) (st, evs) →
      res.1.GroupStatus = st.GroupStatus ∧
      res.1.timers.length = st.timers.length ∧
      res.1.bufs.length = st.bufs.length := by
  intro l
  induction l with
  | nil =>
    intro st evs res hres
    rw [hres]
    exact ⟨rfl, rfl, rfl⟩
  | cons j rest ih =>
    intro st evs res hres
    rw [List.foldl_cons] at hres
    obtain ⟨h1, h2, h3⟩ := txOne_pres cfg o st j
    obtain ⟨g1, g2, g3⟩ :=
      ih (comMainTxOne cfg o st j).1 (evs ++ (comMainTxOne cfg o st j).2) res hres
    exact ⟨g1.trans h1, g2.trans h2, g3.trans h3⟩

theorem mainTx_pres (cfg : Com_ConfigType) (o : Nat → List Nat → Bool) (st : ComState) :
    (Com_MainFunctionTx cfg o st).1.GroupStatus = st.GroupStatus ∧
    (Com_MainFunctionTx cfg o st).1.timers.length = st.timers.length ∧
    (Com_MainFunctionTx cfg o st).1.bufs.length = st.bufs.length :=
  foldTx_pres cfg o (List.range cfg.IPduConfigs.length) st [] _ rfl

/-! ### Com_IpduGroupStart projections -/

theorem gsOne_other (cfg : Com_ConfigType) (g : Nat) (ini : Bool) (st : ComState)
    (j i : Nat) (hne : i ≠ j) :
    (groupStartOne cfg g ini st j).GroupStatus = st.GroupStatus ∧
    (groupStartOne cfg g ini st j).timers.length = st.timers.length ∧
    (groupStartOne cfg g ini st j).bufs.length = st.bufs.length ∧
    (groupStartOne cfg g ini st j).timers.getD i 0 = st.timers.getD i 0 ∧
    (groupStartOne cfg g ini st j).bufs.getD i [] = st.bufs.getD i [] := by
  have hjne : j ≠ i := fun hh => hne hh.symm
  simp only [groupStartOne]
  split
  · exact ⟨rfl, rfl, rfl, rfl, rfl⟩
  · split
    · split
      · split_ifs <;>
          simp [List.getD_eq_getElem?_getD, List.getElem?_set_ne hjne]
      · split
        · split_ifs <;>
            simp [List.getD_eq_getElem?_getD, List.getElem?_set_ne hjne]
        · split_ifs <;>
            simp [List.getD_eq_getElem?_getD, List.getElem?_set_ne hjne]
    · exact ⟨rfl, rfl, rfl, rfl, rfl⟩

theorem gsOne_pres (cfg : Com_ConfigType) (g : Nat) (ini : Bool) (st : ComState)
    (j : Nat) :
    (groupStartOne cfg g ini st j).GroupStatus = st.GroupStatus ∧
    (groupStartOne cfg g ini st j).timers.length = st.timers.length ∧
    (groupStartOne cfg g ini st j).bufs.length = st.bufs.length := by
  simp only [groupStartOne]
  split
  · exact ⟨rfl, rfl, rfl⟩
  · split
    · split
      · split_ifs <;> simp
      · split
        · split_ifs <;> simp
        · split_ifs <;> simp
    · exact ⟨rfl, rfl, rfl⟩

theorem gsOne_self_tx (cfg : Com_ConfigType) (g : Nat) (ini : Bool) (st : ComState)
    (i : Nat) (ip : Com_IPduConfigType) (tx : Com_TxConfigType)
    (hip : cfg.IPduConfigs[i]? = some ip)
    (hmask : ip.GroupRefMask &&& (1 <<< g) ≠ 0)
    (hrx : ip.rxConfig = none) (htx : ip.txConfig = some tx)
    (hlt : i < st.timers.length) :
    (groupStartOne cfg g ini st i).timers.getD i 0 =
      (if 0 < tx.FirstTime then tx.FirstTime else tx.CycleTime) := by
  simp only [groupStartOne, hip, hrx, htx]
  rw [if_pos hmask]
  by_cases hini : ini <;>
    simp [hini, List.getD_eq_getElem?_getD, List.getElem?_set_self hlt]

theorem gsOne_self_rx (cfg : Com_ConfigType) (g : Nat) (ini : Bool) (st : ComState)
    (i : Nat) (ip : Com_IPduConfigType) (rx : Com_RxConfigType)
    (hip : cfg.IPduConfigs[i]? = some ip)
    (hmask : ip.GroupRefMask &&& (1 <<< g) ≠ 0)
    (hrx : ip.rxConfig = some rx)
    (hlt : i < st.timers.length) :
    (groupStartOne cfg g ini st i).timers.getD i 0 =
      (if 0 < rx.FirstTimeout then rx.FirstTimeout else rx.Timeout) := by
  simp only [groupStartOne, hip, hrx]
  rw [if_pos hmask]
  by_cases hini : ini <;>
    simp [hini, List.getD_eq_getElem?_getD, List.getElem?_set_self hlt]

theorem foldGS_not_mem (cfg : Com_ConfigType) (g : Nat) (ini : Bool) :
    ∀ (l : List Nat) (st : ComState) (i : Nat), i ∉ l →
    ∀ res, res = l.foldl (groupStartOne cfg g ini) st →
      res.GroupStatus = st.GroupStatus ∧
      res.timers.length = st.timers.length ∧
      res.bufs.length = st.bufs.length ∧
      res.timers.getD i 0 = st.timers.getD i 0 ∧
      res.bufs.getD i [] = st.bufs.getD i [] := by
  intro l
  induction l with
  | nil =>
    intro st i _ res hres
    rw [hres]
    exact ⟨rfl, rfl, rfl, rfl, rfl⟩
  | cons j rest ih =>
    intro st i hmem res hres
    have hne : i ≠ j := by
      intro hh
      exact hmem (by rw [hh]; exact List.mem_cons_self j rest)
    have hmem2 : i ∉ rest := fun hh => hmem (List.mem_cons_of_mem j hh)
    rw [List.foldl_cons] at hres
    obtain ⟨h1, h2, h3, h4, h5⟩ := gsOne_other cfg g ini st j i hne
    obtain ⟨g1, g2, g3, g4, g5⟩ := ih (groupStartOne cfg g ini st j) i hmem2 res hres
    exact ⟨g1.trans h1, g2.trans h2, g3.trans h3, g4.trans h4, g5.trans h5⟩

theorem foldGS_pres (cfg : Com_ConfigType) (g : Nat) (ini : Bool) :
    ∀ (l : List Nat) (st : ComState),
    ∀ res, res = l.foldl (groupStartOne cfg g ini) st →
      res.GroupStatus = st.GroupStatus ∧
      res.timers.length = st.timers.length ∧
      res.bufs.length = st.bufs.length := by
  intro l
  induction l with
  | nil =>
    intro st res hres
    rw [hres]
    exact ⟨rfl, rfl, rfl⟩
  | cons j rest ih =>
    intro st res hres
    rw [List.foldl_cons] at hres
    obtain ⟨h1, h2, h3⟩ := gsOne_pres cfg g ini st j
    obtain ⟨g1, g2, g3⟩ := ih (groupStartOne cfg g ini st j) res hres
    exact ⟨g1.trans h1, g2.trans h2, g3.trans h3⟩

/-- Timer arming of a TX PDU at group start, plus the group-status and
length bookkeeping. -/
theorem groupStart_tx (cfg : Com_ConfigType) (g : Nat) (ini : Bool) (st : ComState)
    (i : Nat) (ip : Com_IPduConfigType) (tx : Com_TxConfigType)
    (hg : g < cfg.numOfGroups)
    (hip : cfg.IPduConfigs[i]? = some ip)
    (hmask : ip.GroupRefMask &&& (1 <<< g) ≠ 0)
    (hrx : ip.rxConfig = none) (htx : ip.txConfig = some tx)
    (hlt : i < st.timers.length) :
    (Com_IpduGroupStart cfg g ini st).GroupStatus = st.GroupStatus ||| (1 <<< g) ∧
    (Com_IpduGroupStart cfg g ini st).timers.length = st.timers.length ∧
    (Com_IpduGroupStart cfg g ini st).bufs.length = st.bufs.length ∧
    (Com_IpduGroupStart cfg g ini st).timers.getD i 0 =
      (if 0 < tx.FirstTime then tx.FirstTime else tx.CycleTime) := by
  have hi : i < cfg.IPduConfigs.length := by
    by_contra hcon
    rw [List.getElem?_eq_none (by omega)] at hip
    exact Option.noConfusion hip
  unfold Com_IpduGroupStart
  rw [if_pos hg, range_split_at _ i hi, List.foldl_append, List.foldl_cons]
  set st0 : ComState := { st with GroupStatus := st.GroupStatus ||| (1 <<< g) } with hst0
  obtain ⟨a1, a2, a3, a4, a5⟩ := foldGS_not_mem cfg g ini (List.range' 0 i) st0 i
    (by intro hh; rw [List.mem_range'] at hh; omega) _ rfl
  set mid := (List.range' 0 i).foldl (groupStartOne cfg g ini) st0 with hmid
  have hst0t : st0.timers.length = st.timers.length := rfl
  obtain ⟨p1, p2, p3⟩ := gsOne_pres cfg g ini mid i
  have hself := gsOne_self_tx cfg g ini mid i ip tx hip hmask hrx htx (by omega)
  obtain ⟨b1, b2, b3, b4, b5⟩ := foldGS_not_mem cfg g ini
    (List.range' (i + 1) (cfg.IPduConfigs.length - i - 1)) (groupStartOne cfg g ini mid i) i
    (by intro hh; rw [List.mem_range'] at hh; omega) _ rfl
  refine ⟨?_, ?_, ?_, ?_⟩
  · rw [b1, p1, a1]
  · rw [b2, p2, a2]
  · rw [b3, p3, a3]
  · rw [b4, hself]

/-- Timer arming of an RX PDU at group start. -/
theorem groupStart_rx (cfg : Com_ConfigType) (g : Nat) (ini : Bool) (st : ComState)
    (i : Nat) (ip : Com_IPduConfigType) (rx : Com_RxConfigType)
    (hg : g < cfg.numOfGroups)
    (hip : cfg.IPduConfigs[i]? = some ip)
    (hmask : ip.GroupRefMask &&& (1 <<< g) ≠ 0)
    (hrx : ip.rxConfig = some rx)
    (hlt : i < st.timers.length) :
    (Com_IpduGroupStart cfg g ini st).GroupStatus = st.GroupStatus ||| (1 <<< g) ∧
    (Com_IpduGroupStart cfg g ini st).timers.length = st.timers.length ∧
    (Com_IpduGroupStart cfg g ini st).bufs.length = st.bufs.length ∧
    (Com_IpduGroupStart cfg g ini st).timers.getD i 0 =
      (if 0 < rx.FirstTimeout then rx.FirstTimeout else rx.Timeout) := by
  have hi : i < cfg.IPduConfigs.length := by
    by_contra hcon
    rw [List.getElem?_eq_none (by omega)] at hip
    exact Option.noConfusion hip
  unfold Com_IpduGroupStart
  rw [if_pos hg, range_split_at _ i hi, List.foldl_append, List.foldl_cons]
  set st0 : ComState := { st with GroupStatus := st.GroupStatus ||| (1 <<< g) } with hst0
  obtain ⟨a1, a2, a3, a4, a5⟩ := foldGS_not_mem cfg g ini (List.range' 0 i) st0 i
    (by intro hh; rw [List.mem_range'] at hh; omega) _ rfl
  set mid := (List.range' 0 i).foldl (groupStartOne cfg g ini) st0 with hmid
  have hst0t : st0.timers.length = st.timers.length := rfl
  obtain ⟨p1, p2, p3⟩ := gsOne_pres cfg g ini mid i
  have hself := gsOne_self_rx cfg g ini mid i ip rx hip hmask hrx (by omega)
  obtain ⟨b1, b2, b3, b4, b5⟩ := foldGS_not_mem cfg g ini
    (List.range' (i + 1) (cfg.IPduConfigs.length - i - 1)) (groupStartOne cfg g ini mid i) i
    (by intro hh; rw [List.mem_range'] at hh; omega) _ rfl
  refine ⟨?_, ?_, ?_, ?_⟩
  · rw [b1, p1, a1]
  · rw [b2, p2, a2]
  · rw [b3, p3, a3]
  · rw [b4, hself]

theorem mainTx_fired_iff (cfg : Com_ConfigType) (o : Nat → List Nat → Bool)
    (st : ComState) (i : Nat) (ip : Com_IPduConfigType) (tx : Com_TxConfigType)
    (hip : cfg.IPduConfigs[i]? = some ip) (htx : ip.txConfig = some tx)
    (hen : st.GroupStatus &&& ip.GroupRefMask ≠ 0)
    (hlt : i < st.timers.length) (hlb : i < st.bufs.length) :
    hasTransmitFor i (Com_MainFunctionTx cfg o st).2 = true ↔
      st.timers.getD i 0 = 1 := by
  have hi : i < cfg.IPduConfigs.length := by
    by_contra hcon
    rw [List.getElem?_eq_none (by omega)] at hip
    exact Option.noConfusion hip
  obtain ⟨m1, m2, m3, m4, m5, m6⟩ := mainTx_at cfg o st i hi hlt hlb
  obtain ⟨e1, e2, e3⟩ := txOne_enabled cfg o st i ip tx hip htx hen hlt hlb
  constructor
  · intro hf
    by_contra hne
    have hnil : eventsFor i (Com_MainFunctionTx cfg o st).2 = [] := by
      rw [m6, e2, if_neg hne]
    have hfalse := hasTransmitFor_false i _ hnil
    rw [hf] at hfalse
    exact Bool.noConfusion hfalse
  · intro ht
    have hmem : ComEvent.transmit i tx.TxPduId ((st.bufs.getD i []).take ip.length) ∈
        (Com_MainFunctionTx cfg o st).2 := by
      have hmem2 : ComEvent.transmit i tx.TxPduId ((st.bufs.getD i []).take ip.length) ∈
          eventsFor i (Com_MainFunctionTx cfg o st).2 := by
        rw [m6, e2, if_pos ht]
        exact List.mem_singleton.mpr rfl
      unfold eventsFor at hmem2
      exact List.mem_of_mem_filter hmem2
    unfold hasTransmitFor
    rw [List.any_eq_true]
    exact ⟨_, hmem, by simp⟩

theorem timer_step_formula (C off m : Nat) (hC : 1 ≤ C) (_hoff : 1 ≤ off) :
    (if (if m < off then off - m else C - ((m - off) % C)) = 0 then 0
     else if (if m < off then off - m else C - ((m - off) % C)) = 1 then C
     else (if m < off then off - m else C - ((m - off) % C)) - 1) =
    (if m + 1 < off then off - (m + 1) else C - ((m + 1 - off) % C)) := by
  by_cases hm : m < off
  · rw [if_pos hm]
    by_cases hm1 : m + 1 < off
    · rw [if_neg (by omega), if_neg (by omega), if_pos hm1]
      omega
    · rw [if_neg (by omega), if_pos (by omega), if_neg hm1]
      have h0 : m + 1 - off = 0 := by omega
      rw [h0, Nat.zero_mod]
      omega
  · have hrlt : (m - off) % C < C := Nat.mod_lt _ (by omega)
    rw [if_neg hm]
    have hm1 : ¬(m + 1 < off) := by omega
    rw [if_neg hm1]
    have hstep : m + 1 - off = (m - off) + 1 := by omega
    rw [hstep, succ_mod_formula C (m - off) hC]
    by_cases hr1 : (m - off) % C + 1 = C
    · rw [if_pos hr1, if_neg (by omega), if_pos (by omega)]
      omega
    · rw [if_neg hr1, if_neg (by omega), if_neg (by omega)]
      omega

theorem runTx_timer (cfg : Com_ConfigType) (o : Nat → List Nat → Bool)
    (ho : ∀ p dt, o p dt = true)
    (i : Nat) (ip : Com_IPduConfigType) (tx : Com_TxConfigType)
    (hip : cfg.IPduConfigs[i]? = some ip) (htx : ip.txConfig = some tx)
    (hC : 1 ≤ tx.CycleTime) (off : Nat) (hoff : 1 ≤ off) :
    ∀ (n m : Nat) (st : ComState),
      st.GroupStatus &&& ip.GroupRefMask ≠ 0 →
      i < st.timers.length → i < st.bufs.length →
      st.timers.getD i 0 =
        (if m < off then off - m else tx.CycleTime - ((m - off) % tx.CycleTime)) →
      (runMainTx cfg o st n).GroupStatus &&& ip.GroupRefMask ≠ 0 ∧
      i < (runMainTx cfg o st n).timers.length ∧
      i < (runMainTx cfg o st n).bufs.length ∧
      (runMainTx cfg o st n).timers.getD i 0 =
        (if m + n < off then off - (m + n)
         else tx.CycleTime - ((m + n - off) % tx.CycleTime)) := by
  intro n
  induction n with
  | zero =>
    intro m st hen hlt hlb htimer
    exact ⟨hen, hlt, hlb, htimer⟩
  | succ n ih =>
    intro m st hen hlt hlb htimer
    have hi : i < cfg.IPduConfigs.length := by
      by_contra hcon
      rw [List.getElem?_eq_none (by omega)] at hip
      exact Option.noConfusion hip
    obtain ⟨m1, m2, m3, m4, m5, m6⟩ := mainTx_at cfg o st i hi hlt hlb
    obtain ⟨e1, e2, e3⟩ := txOne_enabled cfg o st i ip tx hip htx hen hlt hlb
    have hstep : (Com_MainFunctionTx cfg o st).1.timers.getD i 0 =
        (if m + 1 < off then off - (m + 1)
         else tx.CycleTime - ((m + 1 - off) % tx.CycleTime)) := by
      rw [m4, e1, htimer]
      simp only [ho, if_true]
      exact timer_step_formula tx.CycleTime off m hC hoff
    have hen2 : (Com_MainFunctionTx cfg o st).1.GroupStatus &&& ip.GroupRefMask ≠ 0 := by
      rw [m1]
      exact hen
    obtain ⟨r1, r2, r3, r4⟩ := ih (m + 1) (Com_MainFunctionTx cfg o st).1 hen2
      (by omega) (by omega) hstep
    rw [runMainTx]
    have hmn : m + 1 + n = m + (n + 1) := by omega
    rw [hmn] at r4
    exact ⟨r1, r2, r3, r4⟩

theorem formula_one_iff (C off n : Nat) (hC : 1 ≤ C) (_hoff : 1 ≤ off) (hn : 1 ≤ n) :
    ((if n - 1 < off then off - (n - 1) else C - ((n - 1 - off) % C)) = 1) ↔
      ∃ k, n = off + k * C := by
  by_cases h : n - 1 < off
  · rw [if_pos h]
    constructor
    · intro h1
      exact ⟨0, by omega⟩
    · rintro ⟨k, hk⟩
      cases k with
      | zero => omega
      | succ k2 =>
        have hle : C ≤ (k2 + 1) * C := Nat.le_mul_of_pos_left C (by omega)
        omega
  · rw [if_neg h]
    have hrlt : (n - 1 - off) % C < C := Nat.mod_lt _ (by omega)
    constructor
    · intro h1
      have hstep : n - off = (n - 1 - off) + 1 := by omega
      have hmod : (n - off) % C = 0 := by
        rw [hstep, succ_mod_formula _ _ hC, if_pos (by omega)]
      obtain ⟨k, hk⟩ := Nat.dvd_of_mod_eq_zero hmod
      have hoffn : off ≤ n := by omega
      have hnval : n = off + C * k := by omega
      exact ⟨k, by rw [hnval, Nat.mul_comm]⟩
    · rintro ⟨k, hk⟩
      have hk1 : 1 ≤ k := by
        by_contra hk0
        have hz : k = 0 := by omega
        rw [hz, Nat.zero_mul] at hk
        omega
      have hsplitk : n - 1 - off = (k - 1) * C + (C - 1) := by
        have hmul : k * C = (k - 1) * C + C := by
          have hkk : k = (k - 1) + 1 := by omega
          conv_lhs => rw [hkk]
          rw [Nat.succ_mul]
        omega
      have hmod : (n - 1 - off) % C = C - 1 := by
        rw [hsplitk]
        have hx : ((k - 1) * C + (C - 1)) % C = (C - 1) % C := by
          conv_lhs => rw [Nat.add_comm, Nat.mul_comm]
          exact Nat.add_mul_mod_self_left (C - 1) C (k - 1)
        rw [hx]
        exact Nat.mod_eq_of_lt (by omega)
      omega

/-- Claim C5: for a TX PDU of a group enabled by Com_IpduGroupStart, with
PduR_ComTransmit always returning Ok, iterating Com_MainFunctionTx
produces exactly one transmission at tick off + k·CycleTime for each k,
where the offset off is FirstTime if positive else CycleTime, armed at
group start (tick n is the n-th call after the group start). -/
theorem C5_cycle_honesty (cfg : Com_ConfigType) (g : Nat) (ini : Bool)
    (st0 : ComState) (i : Nat) (ip : Com_IPduConfigType) (tx : Com_TxConfigType)
    (n : Nat)
    (hg : g < cfg.numOfGroups)
    (hip : cfg.IPduConfigs[i]? = some ip)
    (hmask : ip.GroupRefMask &&& (1 <<< g) ≠ 0)
    (hrx : ip.rxConfig = none)
    (htx : ip.txConfig = some tx)
    (hC : 1 ≤ tx.CycleTime)
    (hlt : i < st0.timers.length)
    (hlb : i < st0.bufs.length)
    (hn : 1 ≤ n) :
    hasTransmitFor i (Com_MainFunctionTx cfg alwaysOk
        (runMainTx cfg alwaysOk (Com_IpduGroupStart cfg g ini st0) (n - 1))).2 = true ↔
      ∃ k, n = (if 0 < tx.FirstTime then tx.FirstTime else tx.CycleTime) + k * tx.CycleTime := by
  have hoff : 1 ≤ (if 0 < tx.FirstTime then tx.FirstTime else tx.CycleTime) := by
    split_ifs <;> omega
  obtain ⟨g1, g2, g3, g4⟩ := groupStart_tx cfg g ini st0 i ip tx hg hip hmask hrx htx hlt
  have hen1 : (Com_IpduGroupStart cfg g ini st0).GroupStatus &&& ip.GroupRefMask ≠ 0 := by
    rw [g1]
    exact enabled_after_start _ _ _ hmask
  have ho : ∀ p dt, alwaysOk p dt = true := fun _ _ => rfl
  obtain ⟨r1, r2, r3, r4⟩ := runTx_timer cfg alwaysOk ho i ip tx hip htx hC
    (if 0 < tx.FirstTime then tx.FirstTime else tx.CycleTime) hoff (n - 1) 0
    (Com_IpduGroupStart cfg g ini st0) hen1 (by omega) (by omega)
    (by
      have h0off : (0 : Nat) < (if 0 < tx.FirstTime then tx.FirstTime else tx.CycleTime) := by
        omega
      rw [g4, if_pos h0off]
      omega)
  rw [mainTx_fired_iff cfg alwaysOk _ i ip tx hip htx r1 r2 r3, r4]
  have h0n : 0 + (n - 1) = n - 1 := by omega
  rw [h0n]
  exact formula_one_iff tx.CycleTime _ n hC hoff hn

/-- Claim C5 witness: cycle 5, first time 2, group started at tick 0:
the 7-th call transmits (k = 1: 7 = 2 + 1·5). -/
theorem C5_witness :
    hasTransmitFor 0 (Com_MainFunctionTx cfgW5 alwaysOk
        (runMainTx cfgW5 alwaysOk (Com_IpduGroupStart cfgW5 0 true stW5) 6)).2 = true :=
  (C5_cycle_honesty cfgW5 0 true stW5 0 ipW5 { CycleTime := 5, FirstTime := 2, TxPduId := 7 }
      7 (by decide) (by decide) (by decide) (by decide) (by decide) (by decide)
      (by decide) (by decide) (by decide)).mpr ⟨1, by decide⟩

/-! ### Projection lemmas for the Com_MainFunctionRx loop -/

theorem rxOne_other (cfg : Com_ConfigType) (st : ComState) (j i : Nat) (hne : i ≠ j) :
    (comMainRxOne cfg st j).1.GroupStatus = st.GroupStatus ∧
    (comMainRxOne cfg st j).1.timers.length = st.timers.length ∧
    (comMainRxOne cfg st j).1.bufs = st.bufs ∧
    (comMainRxOne cfg st j).1.timers.getD i 0 = st.timers.getD i 0 ∧
    eventsFor i (comMainRxOne cfg st j).2 = [] := by
  have hjne : j ≠ i := fun hh => hne hh.symm
  have hbeq : (j == i) = false := by simp [hjne]
  simp only [comMainRxOne]
  split
  · exact ⟨rfl, rfl, rfl, rfl, rfl⟩
  · split
    · exact ⟨rfl, rfl, rfl, rfl, rfl⟩
    · split_ifs <;>
        simp [eventsFor, List.filter, hbeq, List.getD_eq_getElem?_getD,
          List.getElem?_set_ne hjne]

theorem rxOne_pres (cfg : Com_ConfigType) (st : ComState) (j : Nat) :
    (comMainRxOne cfg st j).1.GroupStatus = st.GroupStatus ∧
    (comMainRxOne cfg st j).1.timers.length = st.timers.length ∧
    (comMainRxOne cfg st j).1.bufs = st.bufs := by
  simp only [comMainRxOne]
  split
  · exact ⟨rfl, rfl, rfl⟩
  · split
    · exact ⟨rfl, rfl, rfl⟩
    · split_ifs <;> simp

theorem rxOne_congr (cfg : Com_ConfigType) (st st2 : ComState) (i : Nat)
    (hG : st2.GroupStatus = st.GroupStatus)
    (ht : st2.timers.getD i 0 = st.timers.getD i 0)
    (hlt : i < st.timers.length) (hlt2 : i < st2.timers.length) :
    (comMainRxOne cfg st2 i).1.timers.getD i 0 =
      (comMainRxOne cfg st i).1.timers.getD i 0 ∧
    (comMainRxOne cfg st2 i).2 = (comMainRxOne cfg st i).2 := by
  have ht2 : st2.timers[i]?.getD 0 = st.timers[i]?.getD 0 := by
    rw [← List.getD_eq_getElem?_getD, ← List.getD_eq_getElem?_getD]
    exact ht
  simp only [comMainRxOne]
  split
  · exact ⟨ht, rfl⟩
  · split
    · exact ⟨ht, rfl⟩
    · rw [hG, ht]
      split_ifs <;>
        simp [List.getElem?_set_self hlt, List.getElem?_set_self hlt2, ht2]

theorem rxOne_events_self (cfg : Com_ConfigType) (st : ComState) (i : Nat) :
    eventsFor i (comMainRxOne cfg st i).2 = (comMainRxOne cfg st i).2 := by
  simp only [comMainRxOne]
  split
  · rfl
  · split
    · rfl
    · split_ifs <;> simp [eventsFor, List.filter]

theorem foldRx_not_mem (cfg : Com_ConfigType) :
    ∀ (l : List Nat) (st : ComState) (evs : List ComEvent) (i : Nat), i ∉ l →
    ∀ res, res = l.foldl (fun acc j =>
        let r := comMainRxOne cfg acc.1 j
        (r.1, acc.2 ++ r.2)) (st, evs) →
      res.1.GroupStatus = st.GroupStatus ∧
      res.1.timers.length = st.timers.length ∧
      res.1.bufs = st.bufs ∧
      res.1.timers.getD i 0 = st.timers.getD i 0 ∧
      eventsFor i res.2 = eventsFor i evs := by
  intro l
  induction l with
  | nil =>
    intro st evs i _ res hres
    rw [hres]
    exact ⟨rfl, rfl, rfl, rfl, rfl⟩
  | cons j rest ih =>
    intro st evs i hmem res hres
    have hne : i ≠ j := by
      intro hh
      exact hmem (by rw [hh]; exact List.mem_cons_self j rest)
    have hmem2 : i ∉ rest := fun hh => hmem (List.mem_cons_of_mem j hh)
    obtain ⟨h1, h2, h3, h4, h5⟩ := rxOne_other cfg st j i hne
    rw [List.foldl_cons] at hres
    obtain ⟨g1, g2, g3, g4, g5⟩ :=
      ih (comMainRxOne cfg st j).1 (evs ++ (comMainRxOne cfg st j).2) i hmem2 res hres
    refine ⟨g1.trans h1, g2.trans h2, g3.trans h3, g4.trans h4, ?_⟩
    rw [g5, eventsFor_append, h5, List.append_nil]

theorem mainRx_at (cfg : Com_ConfigType) (st : ComState) (i : Nat)
    (hi : i < cfg.IPduConfigs.length) (hlt : i < st.timers.length) :
    (Com_MainFunctionRx cfg st).1.GroupStatus = st.GroupStatus ∧
    (Com_MainFunctionRx cfg st).1.timers.length = st.timers.length ∧
    (Com_MainFunctionRx cfg st).1.bufs = st.bufs ∧
    (Com_MainFunctionRx cfg st).1.timers.getD i 0 =
      (comMainRxOne cfg st i).1.timers.getD i 0 ∧
    eventsFor i (Com_MainFunctionRx cfg st).2 = (comMainRxOne cfg st i).2 := by
  unfold Com_MainFunctionRx
  rw [range_split_at _ i hi, List.foldl_append, List.foldl_cons]
  obtain ⟨a1, a2, a3, a4, a5⟩ := foldRx_not_mem cfg (List.range' 0 i) st [] i
    (by intro hh; rw [List.mem_range'] at hh; obtain ⟨j, hj1, hj2⟩ := hh; omega) _ rfl
  set mid := (List.range' 0 i).foldl (fun acc j =>
      let r := comMainRxOne cfg acc.1 j
      (r.1, acc.2 ++ r.2)) (st, ([] : List ComEvent)) with hmid
  obtain ⟨c1, c2⟩ := rxOne_congr cfg st mid.1 i a1 a4 hlt (by omega)
  obtain ⟨p1, p2, p3⟩ := rxOne_pres cfg mid.1 i
  obtain ⟨b1, b2, b3, b4, b5⟩ := foldRx_not_mem cfg
    (List.range' (i + 1) (cfg.IPduConfigs.length - i - 1))
    (comMainRxOne cfg mid.1 i).1 (mid.2 ++ (comMainRxOne cfg mid.1 i).2) i
    (by intro hh; rw [List.mem_range'] at hh; obtain ⟨j, hj1, hj2⟩ := hh; omega) _ rfl
  refine ⟨?_, ?_, ?_, ?_, ?_⟩
  · rw [b1, p1, a1]
  · rw [b2, p2, a2]
  · rw [b3, p3, a3]
  · rw [b4, c1]
  · rw [b5, eventsFor_append, c2, rxOne_events_self]
    have ha5 : eventsFor i mid.2 = [] := a5
    rw [ha5, List.nil_append]

theorem rxOne_enabled (cfg : Com_ConfigType) (st : ComState) (i : Nat)
    (ip : Com_IPduConfigType) (rx : Com_RxConfigType)
    (hip : cfg.IPduConfigs[i]? = some ip)
    (hrx : ip.rxConfig = some rx)
    (hen : st.GroupStatus &&& ip.GroupRefMask ≠ 0)
    (hlt : i < st.timers.length) :
    (comMainRxOne cfg st i).1.timers.getD i 0 = st.timers.getD i 0 - 1 ∧
    (comMainRxOne cfg st i).2 =
      (if st.timers.getD i 0 = 1 ∧ rx.cbTOut = true then [ComEvent.rxTOut i] else []) := by
  simp only [comMainRxOne, hip, hrx, List.getD_eq_getElem?_getD]
  rw [if_neg hen]
  by_cases h0 : st.timers[i]?.getD 0 = 0
  · simp [h0]
  · have hpos : 0 < st.timers[i]?.getD 0 := by omega
    rw [if_pos hpos]
    constructor
    · simp [List.getElem?_set_self hlt]
    · by_cases h1 : st.timers[i]?.getD 0 = 1
      · simp [h1]
      · have hne1 : ¬(st.timers[i]?.getD 0 - 1 = 0) := by omega
        simp [hne1, h1]

theorem hasRxTOutFor_false (i : Nat) :
    ∀ evs, eventsFor i evs = [] → hasRxTOutFor i evs = false := by
  intro evs
  induction evs with
  | nil => intro _; rfl
  | cons e rest ih =>
    intro h
    cases e with
    | transmit j p d =>
      simp only [eventsFor, List.filter_cons] at h
      by_cases hj : (j == i) = true
      · rw [if_pos hj] at h
        exact absurd h (by simp)
      · rw [if_neg hj] at h
        have hr : hasRxTOutFor i rest = false := ih (by unfold eventsFor; exact h)
        unfold hasRxTOutFor at hr ⊢
        rw [List.any_cons, hr]
        simp
    | rxTOut j =>
      simp only [eventsFor, List.filter_cons] at h
      by_cases hj : (j == i) = true
      · rw [if_pos hj] at h
        exact absurd h (by simp)
      · rw [if_neg hj] at h
        have hr : hasRxTOutFor i rest = false := ih (by unfold eventsFor; exact h)
        unfold hasRxTOutFor at hr ⊢
        rw [List.any_cons, hr]
        simp at hj
        simp [hj]
    | rxInd j =>
      simp only [eventsFor, List.filter_cons] at h
      by_cases hj : (j == i) = true
      · rw [if_pos hj] at h
        exact absurd h (by simp)
      · rw [if_neg hj] at h
        have hr : hasRxTOutFor i rest = false := ih (by unfold eventsFor; exact h)
        unfold hasRxTOutFor at hr ⊢
        rw [List.any_cons, hr]
        simp

theorem mainRx_fired_iff (cfg : Com_ConfigType) (st : ComState) (i : Nat)
    (ip : Com_IPduConfigType) (rx : Com_RxConfigType)
    (hip : cfg.IPduConfigs[i]? = some ip) (hrx : ip.rxConfig = some rx)
    (hcb : rx.cbTOut = true)
    (hen : st.GroupStatus &&& ip.GroupRefMask ≠ 0)
    (hlt : i < st.timers.length) :
    (hasRxTOutFor i (Com_MainFunctionRx cfg st).2 = true ↔ st.timers.getD i 0 = 1) := by
  have hi : i < cfg.IPduConfigs.length := by
    by_contra hcon
    rw [List.getElem?_eq_none (by omega)] at hip
    exact Option.noConfusion hip
  obtain ⟨m1, m2, m3, m4, m5⟩ := mainRx_at cfg st i hi hlt
  obtain ⟨e1, e2⟩ := rxOne_enabled cfg st i ip rx hip hrx hen hlt
  constructor
  · intro hf
    by_contra hne
    have hnil : eventsFor i (Com_MainFunctionRx cfg st).2 = [] := by
      rw [m5, e2, if_neg (by intro hh; exact hne hh.1)]
    have hfalse := hasRxTOutFor_false i _ hnil
    rw [hf] at hfalse
    exact Bool.noConfusion hfalse
  · intro ht
    have hmem : ComEvent.rxTOut i ∈ (Com_MainFunctionRx cfg st).2 := by
      have hmem2 : ComEvent.rxTOut i ∈ eventsFor i (Com_MainFunctionRx cfg st).2 := by
        rw [m5, e2, if_pos ⟨ht, hcb⟩]
        exact List.mem_singleton.mpr rfl
      unfold eventsFor at hmem2
      exact List.mem_of_mem_filter hmem2
    unfold hasRxTOutFor
    rw [List.any_eq_true]
    exact ⟨_, hmem, by simp⟩

theorem runRx_timer (cfg : Com_ConfigType) (i : Nat) (ip : Com_IPduConfigType)
    (rx : Com_RxConfigType)
    (hip : cfg.IPduConfigs[i]? = some ip) (hrx : ip.rxConfig = some rx) :
    ∀ (n : Nat) (st : ComState),
      st.GroupStatus &&& ip.GroupRefMask ≠ 0 →
      i < st.timers.length →
      (runMainRx cfg st n).GroupStatus &&& ip.GroupRefMask ≠ 0 ∧
      i < (runMainRx cfg st n).timers.length ∧
      (runMainRx cfg st n).timers.getD i 0 = st.timers.getD i 0 - n := by
  intro n
  induction n with
  | zero =>
    intro st hen hlt
    exact ⟨hen, hlt, rfl⟩
  | succ n ih =>
    intro st hen hlt
    have hi : i < cfg.IPduConfigs.length := by
      by_contra hcon
      rw [List.getElem?_eq_none (by omega)] at hip
      exact Option.noConfusion hip
    obtain ⟨m1, m2, m3, m4, m5⟩ := mainRx_at cfg st i hi hlt
    obtain ⟨e1, e2⟩ := rxOne_enabled cfg st i ip rx hip hrx hen hlt
    have hen2 : (Com_MainFunctionRx cfg st).1.GroupStatus &&& ip.GroupRefMask ≠ 0 := by
      rw [m1]
      exact hen
    obtain ⟨r1, r2, r3⟩ := ih (Com_MainFunctionRx cfg st).1 hen2 (by omega)
    rw [runMainRx]
    refine ⟨r1, r2, ?_⟩
    rw [r3, m4, e1]
    omega

/-- Claim C6: for an RX PDU of a group enabled by Com_IpduGroupStart,
with no frames delivered, the timer decreases by one per
Com_MainFunctionRx call and latches at zero, and the RxTOut callback
fires exactly once, at the call where the timer reaches zero (tick R:
FirstTimeout if positive else Timeout). -/
theorem C6_rx_timeout (cfg : Com_ConfigType) (g : Nat) (ini : Bool) (st0 : ComState)
    (i : Nat) (ip : Com_IPduConfigType) (rx : Com_RxConfigType)
    (hg : g < cfg.numOfGroups)
    (hip : cfg.IPduConfigs[i]? = some ip)
    (hmask : ip.GroupRefMask &&& (1 <<< g) ≠ 0)
    (hrxc : ip.rxConfig = some rx)
    (hcb : rx.cbTOut = true)
    (hR : 1 ≤ (if 0 < rx.FirstTimeout then rx.FirstTimeout else rx.Timeout))
    (hlt : i < st0.timers.length) :
    (∀ m, (runMainRx cfg (Com_IpduGroupStart cfg g ini st0) m).timers.getD i 0 =
       (if 0 < rx.FirstTimeout then rx.FirstTimeout else rx.Timeout) - m) ∧
    (∀ n, 1 ≤ n →
      (hasRxTOutFor i (Com_MainFunctionRx cfg
          (runMainRx cfg (Com_IpduGroupStart cfg g ini st0) (n - 1))).2 = true ↔
        n = (if 0 < rx.FirstTimeout then rx.FirstTimeout else rx.Timeout))) := by
  obtain ⟨g1, g2, g3, g4⟩ := groupStart_rx cfg g ini st0 i ip rx hg hip hmask hrxc hlt
  have hen1 : (Com_IpduGroupStart cfg g ini st0).GroupStatus &&& ip.GroupRefMask ≠ 0 := by
    rw [g1]
    exact enabled_after_start _ _ _ hmask
  constructor
  · intro m
    obtain ⟨r1, r2, r3⟩ := runRx_timer cfg i ip rx hip hrxc m
      (Com_IpduGroupStart cfg g ini st0) hen1 (by omega)
    rw [r3, g4]
  · intro n hn
    obtain ⟨r1, r2, r3⟩ := runRx_timer cfg i ip rx hip hrxc (n - 1)
      (Com_IpduGroupStart cfg g ini st0) hen1 (by omega)
    rw [mainRx_fired_iff cfg _ i ip rx hip hrxc hcb r1 r2, r3, g4]
    omega

/-- Claim C6 witness: timeout 4, first timeout 1: the timer counts 1, 0,
0, ... and the RxTOut callback fires exactly at tick 1 (it does fire at
tick 1, and does not fire at tick 2). -/
theorem C6_witness :
    (runMainRx cfgW6 (Com_IpduGroupStart cfgW6 0 true stW6) 3).timers.getD 0 0 = 1 - 3 ∧
    hasRxTOutFor 0 (Com_MainFunctionRx cfgW6
        (runMainRx cfgW6 (Com_IpduGroupStart cfgW6 0 true stW6) 0)).2 = true ∧
    hasRxTOutFor 0 (Com_MainFunctionRx cfgW6
        (runMainRx cfgW6 (Com_IpduGroupStart cfgW6 0 true stW6) 1)).2 = false := by
  have hc := C6_rx_timeout cfgW6 0 true stW6 0 ipW6
    { Timeout := 4, FirstTimeout := 1, cbRx := true, cbTOut := true }
    (by decide) (by decide) (by decide) (by decide) (by decide) (by decide) (by decide)
  refine ⟨by rw [hc.1 3]; decide, ?_, ?_⟩
  · exact (hc.2 1 (by decide)).mpr (by decide)
  · have h2 := hc.2 2 (by decide)
    by_contra hcon
    rw [Bool.not_eq_false] at hcon
    have := h2.mp hcon
    exact absurd this (by decide)

/-- Claim C7 (code-bug evidence): Com_SendSignal has no NULL check of its
source pointer, unlike Com_ReceiveSignal which checks its destination.
With a valid signal id and a NULL source, the send path reaches a
dereference of the NULL pointer (undefined behaviour, modelled as the
result none) instead of returning NotOk as specified; the receive path
with a NULL destination does return NotOk untouched. -/
theorem C7_null_src_deref :
    Com_SendSignal cfgW7 0 none stW7 = none ∧
    Com_ReceiveSignal cfgW7 0 false stW7 = (E_NOT_OK, stW7, none) := by
  decide

/-- Claim C8 counterexample: with the update bit of the PDU's signal set
and the timer at 1, a successful Com_TriggerIPDUSend leaves the update
bit set (byte 1 still 0x01), while the timer-driven send of
Com_MainFunctionTx clears it: the two state transformations differ. -/
theorem C8_counterexample :
    (Com_TriggerIPDUSend cfgW8 alwaysOk 0 stW8).2.1.bufs ≠
      (Com_MainFunctionTx cfgW8 alwaysOk stW8).1.bufs ∧
    Std_BitGet ((Com_TriggerIPDUSend cfgW8 alwaysOk 0 stW8).2.1.bufs.getD 0 []) 8 = true ∧
    Std_BitGet ((Com_MainFunctionTx cfgW8 alwaysOk stW8).1.bufs.getD 0 []) 8 = false := by
  decide

/-- Claim C8 as amended: for an enabled TX PDU whose timer stands at 1,
Com_TriggerIPDUSend transmits immediately with the same data as the
timer-driven send, re-arms the timer identically (CycleTime on success,
1 on failure), and reports Ok (even on failure); but unlike
Com_MainFunctionTx it never touches the PDU buffer: the timer-driven
send additionally clears all update bits of the PDU's signals on
success. -/
theorem C8_trigger_vs_main_amended (cfg : Com_ConfigType) (o : Nat → List Nat → Bool)
    (st : ComState) (i : Nat) (ip : Com_IPduConfigType) (tx : Com_TxConfigType)
    (hip : cfg.IPduConfigs[i]? = some ip)
    (htx : ip.txConfig = some tx)
    (hen : st.GroupStatus &&& ip.GroupRefMask ≠ 0)
    (ht1 : st.timers.getD i 0 = 1)
    (hlt : i < st.timers.length) (hlb : i < st.bufs.length) :
    (Com_TriggerIPDUSend cfg o i st).1 = E_OK ∧
    (Com_TriggerIPDUSend cfg o i st).2.1.timers.getD i 0 =
      (Com_MainFunctionTx cfg o st).1.timers.getD i 0 ∧
    (Com_TriggerIPDUSend cfg o i st).2.2 = eventsFor i (Com_MainFunctionTx cfg o st).2 ∧
    (Com_TriggerIPDUSend cfg o i st).2.1.bufs = st.bufs ∧
    (Com_MainFunctionTx cfg o st).1.bufs.getD i [] =
      (if o tx.TxPduId ((st.bufs.getD i []).take ip.length) then
        comTxClearUpdateBit ip.signals (st.bufs.getD i [])
       else st.bufs.getD i []) := by
  have hi : i < cfg.IPduConfigs.length := by
    by_contra hcon
    rw [List.getElem?_eq_none (by omega)] at hip
    exact Option.noConfusion hip
  obtain ⟨m1, m2, m3, m4, m5, m6⟩ := mainTx_at cfg o st i hi hlt hlb
  obtain ⟨e1, e2, e3⟩ := txOne_enabled cfg o st i ip tx hip htx hen hlt hlb
  have htrig : Com_TriggerIPDUSend cfg o i st =
      (E_OK, { st with timers := (st.timers.set i
          (if o tx.TxPduId ((st.bufs.getD i []).take ip.length) then tx.CycleTime else 1)) },
        [ComEvent.transmit i tx.TxPduId ((st.bufs.getD i []).take ip.length)]) := by
    simp only [Com_TriggerIPDUSend, hip, htx]
    rw [if_neg hen]
    simp only [List.getD_eq_getElem?_getD]
    by_cases ho : o tx.TxPduId (List.take ip.length (st.bufs[i]?.getD [])) = true <;>
      simp [ho]
  refine ⟨?_, ?_, ?_, ?_, ?_⟩
  · rw [htrig]
  · rw [htrig, m4, e1, ht1]
    simp only [List.getD_eq_getElem?_getD, List.getElem?_set_self hlt]
    simp
  · rw [htrig, m6, e2, if_pos ht1]
  · rw [htrig]
  · rw [m5, e3]
    have ht1h : st.timers[i]?.getD 0 = 1 := by
      rw [← List.getD_eq_getElem?_getD]
      exact ht1
    by_cases ho : o tx.TxPduId (List.take ip.length (st.bufs[i]?.getD [])) = true <;>
      simp [ho, ht1, ht1h]

/-- Claim C8 amended witness (successful transmit case). -/
theorem C8_witness :
    (Com_TriggerIPDUSend cfgW8 alwaysOk 0 stW8).1 = E_OK ∧
    (Com_TriggerIPDUSend cfgW8 alwaysOk 0 stW8).2.1.timers.getD 0 0 =
      (Com_MainFunctionTx cfgW8 alwaysOk stW8).1.timers.getD 0 0 ∧
    (Com_TriggerIPDUSend cfgW8 alwaysOk 0 stW8).2.2 =
      eventsFor 0 (Com_MainFunctionTx cfgW8 alwaysOk stW8).2 ∧
    (Com_TriggerIPDUSend cfgW8 alwaysOk 0 stW8).2.1.bufs = stW8.bufs ∧
    (Com_MainFunctionTx cfgW8 alwaysOk stW8).1.bufs.getD 0 [] =
      (if alwaysOk 3 ((stW8.bufs.getD 0 []).take ipW8.length) then
        comTxClearUpdateBit ipW8.signals (stW8.bufs.getD 0 [])
       else stW8.bufs.getD 0 []) :=
  C8_trigger_vs_main_amended cfgW8 alwaysOk stW8 0 ipW8
    { CycleTime := 5, FirstTime := 2, TxPduId := 3 }
    (by decide) (by decide) (by decide) (by decide) (by decide) (by decide)

/-- Claim C9: Com_TriggerTransmit with a valid PduId and sufficient
out-frame capacity copies the PDU buffer out and returns Ok, with no
hypothesis on the PDU's direction or on its group being enabled, and by
construction it modifies no state (it only reads the buffer). -/
theorem C9_trigger_transmit (cfg : Com_ConfigType) (st : ComState) (id cap : Nat)
    (ip : Com_IPduConfigType)
    (hip : cfg.IPduConfigs[id]? = some ip)
    (hcap : ip.length ≤ cap) :
    Com_TriggerTransmit cfg st id cap = (E_OK, some ((st.bufs.getD id []).take ip.length)) := by
  simp only [Com_TriggerTransmit, hip]
  rw [if_pos hcap]

/-- Claim C9 witness: an RX PDU in a currently disabled group still
answers Com_TriggerTransmit with its buffer contents. -/
theorem C9_witness :
    Com_TriggerTransmit cfgW9 stW9 0 8 =
      (E_OK, some ((stW9.bufs.getD 0 []).take ipW9.length)) ∧
    stW9.GroupStatus &&& ipW9.GroupRefMask = 0 ∧ ipW9.rxConfig.isSome = true :=
  ⟨C9_trigger_transmit cfgW9 stW9 0 8 ipW9 (by decide) (by decide), by decide, by decide⟩

/-! ### Footprint lemmas: bits outside a signal's field survive the
send path -/

theorem length_sigBytes (d : SigData) (n : Nat) : (sigBytes d n).length = n := by
  cases d <;> simp [sigBytes]

theorem memcpyInto_getD_outside : ∀ (src buf : List Nat) (off j : Nat),
    (j < off ∨ off + src.length ≤ j) →
    (memcpyInto buf off src).getD j 0 = buf.getD j 0 := by
  intro src
  induction src with
  | nil => intro buf off j _; rfl
  | cons b rest ih =>
    intro buf off j hj
    simp only [List.length_cons] at hj
    rw [memcpyInto, ih _ _ _ (by omega)]
    exact getD_set_ne buf b 0 (by omega)

theorem Std_BitGet_memcpyInto_outside (src buf : List Nat) (off p : Nat)
    (h : p / 8 < off ∨ off + src.length ≤ p / 8) :
    Std_BitGet (memcpyInto buf off src) p = Std_BitGet buf p := by
  unfold Std_BitGet
  rw [memcpyInto_getD_outside src buf off (p / 8) h]

/-- A bit position a signal does not touch (sigTouches = false) is left
unchanged by the data-write part of the send path. -/
theorem comSendSignalData_untouched (sg : Com_SignalConfigType) (d : SigData)
    (buf : List Nat) (p : Nat) (hp : sigTouches sg p = false) :
    Std_BitGet (comSendSignalData sg d buf).2 p = Std_BitGet buf p := by
  unfold comSendSignalData
  unfold sigTouches at hp
  by_cases hif : sg.type = .COM_UINT8N ∨ sg.Endianness = .OPAQUE
  · rw [if_pos hif] at hp
    rw [if_pos hif]
    rw [decide_eq_false_iff_not] at hp
    push_neg at hp
    apply Std_BitGet_memcpyInto_outside
    rw [length_sigBytes]
    by_cases h1 : sg.ptrOff ≤ p / 8
    · exact Or.inr (hp h1)
    · exact Or.inl (by omega)
  · rw [if_neg hif] at hp
    rw [if_neg hif]
    cases hE : sg.Endianness with
    | OPAQUE => exact absurd (Or.inr hE) hif
    | LITTLE =>
      simp only [hE] at hp ⊢
      rw [decide_eq_false_iff_not] at hp
      push_neg at hp
      cases hv : comGetSignalValue sg d with
      | none => simp only [hv]
      | some v =>
        simp only [hv]
        apply leSet_outside
        by_cases h1 : 8 * sg.ptrOff + sg.BitPosition ≤ p
        · exact Or.inr (hp h1)
        · exact Or.inl (by omega)
    | BIG =>
      simp only [hE] at hp ⊢
      rw [decide_eq_false_iff_not] at hp
      push_neg at hp
      cases hv : comGetSignalValue sg d with
      | none => simp only [hv]
      | some v =>
        simp only [hv]
        unfold Std_BitSetBigEndian
        exact beSetAux_outside _ _ _ _ _ hp

/-- A true bit that no part of a signal's send path overwrites stays
true: the data write leaves it alone and the update-bit epilogue only
sets bits. -/
theorem comSendSignal_preserves_true (sg : Com_SignalConfigType) (d : SigData)
    (buf : List Nat) (p : Nat) (hp : sigTouches sg p = false)
    (h : Std_BitGet buf p = true) :
    Std_BitGet (comSendSignal sg d buf).2 p = true := by
  unfold comSendSignal comSetUpdateBit
  cases hu : sg.UpdateBit with
  | none =>
    simp only [hu]
    rw [comSendSignalData_untouched sg d buf p hp]
    exact h
  | some u =>
    simp only [hu]
    exact Std_BitGet_Std_BitSet_mono _ _ _ (by
      rw [comSendSignalData_untouched sg d buf p hp]
      exact h)

theorem comIPduDataInit_preserves_true : ∀ (sigs : List Com_SignalConfigType)
    (buf : List Nat) (p : Nat),
    (∀ sg ∈ sigs, sigTouches sg p = false) →
    Std_BitGet buf p = true →
    Std_BitGet (comIPduDataInit sigs buf) p = true := by
  intro sigs
  induction sigs with
  | nil => intro buf p _ h; exact h
  | cons sg rest ih =>
    intro buf p hd h
    unfold comIPduDataInit at ih ⊢
    rw [List.foldl_cons]
    exact ih _ _ (fun s hs => hd s (List.mem_cons_of_mem sg hs))
      (comSendSignal_preserves_true sg sg.initVal buf p
        (hd sg (List.mem_cons_self sg rest)) h)

theorem comIPduDataInit_append_eq (l1 l2 : List Com_SignalConfigType)
    (buf : List Nat) :
    comIPduDataInit (l1 ++ l2) buf = comIPduDataInit l2 (comIPduDataInit l1 buf) := by
  unfold comIPduDataInit
  rw [List.foldl_append]

theorem comIPduDataInit_cons_eq (sg : Com_SignalConfigType)
    (l : List Com_SignalConfigType) (buf : List Nat) :
    comIPduDataInit (sg :: l) buf =
      comIPduDataInit l (comSendSignal sg sg.initVal buf).2 := by
  unfold comIPduDataInit
  rw [List.foldl_cons]

/-- At group start with initialization, the started PDU's buffer at its
own index is the comIPduDataInit of its previous contents. -/
theorem gsOne_self_bufs (cfg : Com_ConfigType) (g : Nat) (st : ComState)
    (i : Nat) (ip : Com_IPduConfigType)
    (hip : cfg.IPduConfigs[i]? = some ip)
    (hmask : ip.GroupRefMask &&& (1 <<< g) ≠ 0)
    (hlb : i < st.bufs.length) :
    (groupStartOne cfg g true st i).bufs.getD i [] =
      comIPduDataInit ip.signals (st.bufs.getD i []) := by
  simp only [groupStartOne, hip]
  rw [if_pos hmask]
  cases hrx : ip.rxConfig with
  | some rx =>
    simp [hrx, List.getD_eq_getElem?_getD, List.getElem?_set_self hlb]
  | none =>
    cases htx : ip.txConfig with
    | some tx =>
      simp [hrx, htx, List.getD_eq_getElem?_getD, List.getElem?_set_self hlb]
    | none =>
      simp [hrx, htx, List.getD_eq_getElem?_getD, List.getElem?_set_self hlb]

/-- Com_IpduGroupStart with initialize = true rewrites the buffer of a
referenced PDU to comIPduDataInit of its previous contents. -/
theorem groupStart_bufs (cfg : Com_ConfigType) (g : Nat) (st : ComState)
    (i : Nat) (ip : Com_IPduConfigType)
    (hg : g < cfg.numOfGroups)
    (hip : cfg.IPduConfigs[i]? = some ip)
    (hmask : ip.GroupRefMask &&& (1 <<< g) ≠ 0)
    (hlb : i < st.bufs.length) :
    (Com_IpduGroupStart cfg g true st).bufs.getD i [] =
      comIPduDataInit ip.signals (st.bufs.getD i []) := by
  have hi : i < cfg.IPduConfigs.length := by
    by_contra hcon
    rw [List.getElem?_eq_none (by omega)] at hip
    exact Option.noConfusion hip
  unfold Com_IpduGroupStart
  rw [if_pos hg, range_split_at _ i hi, List.foldl_append, List.foldl_cons]
  set st0 : ComState := { st with GroupStatus := st.GroupStatus ||| (1 <<< g) } with hst0
  obtain ⟨a1, a2, a3, a4, a5⟩ := foldGS_not_mem cfg g true (List.range' 0 i) st0 i
    (by intro hh; rw [List.mem_range'] at hh; omega) _ rfl
  set mid := (List.range' 0 i).foldl (groupStartOne cfg g true) st0 with hmid
  have hst0b : st0.bufs.length = st.bufs.length := rfl
  have hself := gsOne_self_bufs cfg g mid i ip hip hmask (by omega)
  obtain ⟨b1, b2, b3, b4, b5⟩ := foldGS_not_mem cfg g true
    (List.range' (i + 1) (cfg.IPduConfigs.length - i - 1))
    (groupStartOne cfg g true mid i) i
    (by intro hh; rw [List.mem_range'] at hh; omega) _ rfl
  rw [b5, hself, a5]

/-- Claim C10: after Com_IpduGroupStart(groupId, initialize = true),
every signal with a configured update bit in every PDU whose
GroupRefMask references the group has its update bit set in the PDU
buffer, because the group-start initialization runs the full send path
(comSendSignal, whose epilogue sets the update bit unconditionally) on
every signal of the PDU; the disjointness hypothesis states the
configuration well-formedness that no signal's data field overlaps the
update-bit position, so the bit set for this signal survives the writes
performed for the other signals.  Hence the first receive after
initialization passes the update-bit gate. -/
theorem C10_group_start_update_bits (cfg : Com_ConfigType) (g : Nat) (st0 : ComState)
    (i : Nat) (ip : Com_IPduConfigType) (sg : Com_SignalConfigType) (u : Nat)
    (hg : g < cfg.numOfGroups)
    (hip : cfg.IPduConfigs[i]? = some ip)
    (hmask : ip.GroupRefMask &&& (1 <<< g) ≠ 0)
    (hsg : sg ∈ ip.signals)
    (hu : sg.UpdateBit = some u)
    (hlb : i < st0.bufs.length)
    (hub : 8 * sg.ptrOff + u < 8 * (st0.bufs.getD i []).length)
    (hdisj : ∀ sg2 ∈ ip.signals, sigTouches sg2 (8 * sg.ptrOff + u) = false) :
    Std_BitGet ((Com_IpduGroupStart cfg g true st0).bufs.getD i [])
      (8 * sg.ptrOff + u) = true := by
  rw [groupStart_bufs cfg g st0 i ip hg hip hmask hlb]
  obtain ⟨l1, l2, hsplit⟩ := List.append_of_mem hsg
  rw [hsplit, comIPduDataInit_append_eq, comIPduDataInit_cons_eq]
  apply comIPduDataInit_preserves_true
  · intro s hs
    exact hdisj s (by
      rw [hsplit]
      exact List.mem_append_right l1 (List.mem_cons_of_mem sg hs))
  · apply comSendSignal_sets_update_bit sg sg.initVal _ u hu
    rw [length_comIPduDataInit]
    exact hub

/-- Claim C10 witness: starting group 0 of cfgW10 with initialization
sets the update bit of sigW10a (bit 16 of the 3-byte PDU buffer) even
though the application never sent the signal. -/
theorem C10_witness :
    Std_BitGet ((Com_IpduGroupStart cfgW10 0 true stW10).bufs.getD 0 [])
      (8 * sigW10a.ptrOff + 16) = true :=
  C10_group_start_update_bits cfgW10 0 stW10 0 ipW10 sigW10a 16
    (by decide) (by decide) (by decide) (by simp [ipW10]) (by decide)
    (by decide) (by decide) (by decide)
